import Mathlib

/-!
Verification of the snap-generator snapshot pipeline.

This file gives a shallow embedding of the traversal-and-capture pipeline of
the snap-generator repository and proves properties stated in its
specification.  The embedded components and their sources are

* walker.js: compileExclusions, shouldExclude, walk;
* metadata.js: getEntryData;
* database.js: initDb, calculateSnapshotContentHash;
* snapshot.js: createSnapshot (the batching pipeline, statistics, identity
  persistence, manifest write).

The exclusion matching is performed by the external minimatch dependency;
its matching algorithm (comment handling, negation, brace expansion,
slash-splitting, per-segment glob matching and the globstar backtracking
loop of Minimatch.matchOne) is embedded below for the option combination
and pattern shapes the repository uses.  Character classes and extglob
forms are outside the modelled subset and the theorems that quantify over
pattern fragments restrict those fragments to metacharacter-free segments.

Environment conventions of the model:

* the SHA-256 incremental hash folded over serialized rows is modelled by
  the sequence of rows in the order they are folded (SHA-256 over the
  canonical serialization is injective, so digest equality is row-sequence
  equality);
* wall-clock fields (scan_start, scan_end, scan_duration) are modelled as 0;
* the content hash of one file (calculateFileHash, whose source file is not
  available; its declaration in metadata.js types it as returning a digest
  string or null) is modelled from the spec as an oracle value attached to
  each file node: some digest on success, none on error;
* SQLite batch transactions are atomic; a transaction that throws leaves the
  table unchanged.  Failure injection for flush transactions is an oracle
  indexed by the flush attempt number.
-/

namespace Snap

/-! ## Characters and strings -/

/-- ASCII lower-casing of one character, used for nocase matching. -/
def lowerChar (c : Char) : Char :=
  if 65 ≤ c.toNat ∧ c.toNat ≤ 90 then Char.ofNat (c.toNat + 32) else c

/-- Character comparison, optionally ASCII-case-insensitive (the nocase
option compiles the match regex with the i flag). -/
def chEq (nocase : Bool) (a b : Char) : Bool :=
  a == b || (nocase && lowerChar a == lowerChar b)

/-- Byte-order comparison of character lists, the ordering SQLite uses for
ORDER BY over TEXT (memcmp order; for UTF-8, codepoint order). -/
def chListLe : List Char → List Char → Bool
  | [], _ => true
  | _ :: _, [] => false
  | a :: as, b :: bs =>
    if a.toNat < b.toNat then true
    else if b.toNat < a.toNat then false
    else chListLe as bs

/-- Byte-order comparison of strings. -/
def pathLe (a b : String) : Bool := chListLe a.data b.data

/-- Splitting a character list at every slash. -/
def splitChars : List Char → List (List Char)
  | [] => [[]]
  | c :: rest =>
    if c = '/' then [] :: splitChars rest
    else
      match splitChars rest with
      | [] => [[c]]
      | s :: ss => (c :: s) :: ss

/-- Joining segment character lists with slashes. -/
def joinChars : List (List Char) → List Char
  | [] => []
  | [s] => s
  | s :: rest => s ++ '/' :: joinChars rest

/-- Splitting a string on the slash separator, as minimatch splits both the
pattern and the candidate path. -/
def splitSlash (s : String) : List String :=
  (splitChars s.data).map (fun l => String.mk l)

/-- Rendering of the root-relative path of an entry from its segment list.
The walker forms this value with path.relative and the empty relative path
of the root is replaced by a dot, mirroring relative(root, p) with the
or-dot fallback in walker.js and metadata.js. -/
def renderSegs (segs : List String) : String :=
  if segs.isEmpty then "." else String.mk (joinChars (segs.map String.data))

/-- Collapsing every run of backslashes to one forward slash, the
replace-backslash-runs normalization applied to symlink targets in
metadata.js. -/
def normSlashAux : Bool → List Char → List Char
  | _, [] => []
  | prevBS, c :: rest =>
    if c = '\\' then
      if prevBS then normSlashAux true rest else '/' :: normSlashAux true rest
    else c :: normSlashAux false rest

/-- Normalization of a symlink target string. -/
def normSlashes (s : String) : String := String.mk (normSlashAux false s.data)

/-! ## The minimatch matcher

Model of the matching algorithm of the minimatch dependency for slash-free
segment patterns built from literals, single-character wildcards, stars and
the globstar segment. -/

/-- Option record of a Minimatch instance.  Only the options the repository
can reach are carried. -/
structure MmOpts where
  dot : Bool
  nocase : Bool
  nocomment : Bool
  nobrace : Bool
  nonegate : Bool
deriving DecidableEq, Repr

/-- Option set passed by compileExclusions in walker.js: dot, nocase and
nocomment are set; every other option keeps its default false. -/
def snapOpts : MmOpts :=
  { dot := true, nocase := true, nocomment := true, nobrace := false, nonegate := false }

/-- Fuel-indexed glob match of one pattern segment against one path segment:
star matches any run of characters, the question mark one character, any
other character itself (case folded when nocase).  The fuel argument makes
the definition structural; globChars supplies sufficient fuel. -/
def globCharsF (nocase : Bool) : Nat → List Char → List Char → Bool
  | 0, _, _ => false
  | _ + 1, [], cs => cs.isEmpty
  | f + 1, p :: ps, cs =>
    if p = '*' then
      match cs with
      | [] => globCharsF nocase f ps []
      | _ :: cs1 => globCharsF nocase f ps cs || globCharsF nocase f (p :: ps) cs1
    else
      match cs with
      | [] => false
      | c :: cs1 =>
        if p = '?' then globCharsF nocase f ps cs1
        else chEq nocase p c && globCharsF nocase f ps cs1

/-- Glob match of one pattern segment against one path segment. -/
def globChars (nocase : Bool) (ps cs : List Char) : Bool :=
  globCharsF nocase (ps.length + cs.length + 1) ps cs

/-- True when the string starts with a dot. -/
def startsDot (s : String) : Bool :=
  match s.data with
  | '.' :: _ => true
  | _ => false

/-- Match of one non-globstar pattern segment against one path segment,
including the dot rule: without the dot option a pattern segment that does
not itself start with a dot cannot match a dot-initial path segment. -/
def segMatch (opts : MmOpts) (p f : String) : Bool :=
  if !opts.dot && startsDot f && !startsDot p then false
  else globChars opts.nocase p.data f.data

/-- Path segments the globstar refuses to swallow: dot and dot-dot always,
and dotfiles when the dot option is off. -/
def blockedSeg (opts : MmOpts) (s : String) : Bool :=
  s == "." || s == ".." || (!opts.dot && startsDot s)

/-- One compiled pattern segment. -/
inductive PatSeg where
  | globstar
  | lit (s : String)
deriving DecidableEq, Repr

/-- Parsing one pattern segment: the exact two-star segment becomes the
globstar, anything else a glob literal. -/
def parseSeg (s : String) : PatSeg :=
  if s == "**" then PatSeg.globstar else PatSeg.lit s

/-- Suffixes the globstar backtracking loop of matchOne tries: every suffix
starting at the globstar position, stopping after the first suffix whose
head is a blocked segment. -/
def gsTries (opts : MmOpts) : List String → List (List String)
  | [] => []
  | f :: fs => (f :: fs) :: (if blockedSeg opts f then [] else gsTries opts fs)

/-- Model of Minimatch.matchOne on split segments.  A trailing globstar
reached with at least one remaining path segment matches the whole rest
provided no remaining segment is blocked; a trailing globstar reached with
no remaining path segment fails, because the matching loop is never entered
at that position (this is why a pattern ending in slash-globstar does not
match the bare directory itself).  A non-trailing globstar tries every
suffix the backtracking loop reaches. -/
def matchSegs (opts : MmOpts) : List PatSeg → List String → Bool
  | [], fs =>
    match fs with
    | [] => true
    | [f] => f == ""
    | _ => false
  | PatSeg.lit p :: ps, fs =>
    match fs with
    | [] => false
    | f :: fs1 => segMatch opts p f && matchSegs opts ps fs1
  | PatSeg.globstar :: ps, fs =>
    match fs with
    | [] => false
    | f :: fs1 =>
      if ps.isEmpty then (f :: fs1).all (fun s => !blockedSeg opts s)
      else (gsTries opts (f :: fs1)).any (fun suf => matchSegs opts ps suf)

/-- Negation prefix handling of minimatch: leading exclamation marks are
stripped and an odd count negates the result. -/
def parseNegateAux : List Char → Bool → Bool × List Char
  | '!' :: rest, n => parseNegateAux rest (!n)
  | l, n => (n, l)

/-- Negation handling honoring the nonegate option. -/
def parseNegate (opts : MmOpts) (p : String) : Bool × String :=
  if opts.nonegate then (false, p)
  else
    let r := parseNegateAux p.data false
    (r.1, String.mk r.2)

/-- Splitting a brace body at top-level commas (flat model, no nesting). -/
def splitCommas : List Char → List (List Char)
  | [] => [[]]
  | c :: rest =>
    if c = ',' then [] :: splitCommas rest
    else
      match splitCommas rest with
      | [] => [[c]]
      | s :: ss => (c :: s) :: ss

/-- Characters up to the first closing brace, and the rest after it. -/
def scanClose : List Char → Option (List Char × List Char)
  | [] => none
  | c :: rest =>
    if c = '\x7d' then some ([], rest)
    else
      match scanClose rest with
      | none => none
      | some (inside, after) => some (c :: inside, after)

/-- Locating the first flat comma-bearing brace group of a pattern:
the prefix before it, the comma-separated alternatives, and the suffix
after it.  A group without a comma is left literal, as the brace-expansion
package leaves single-entry braces unexpanded. -/
def findBrace : List Char → Option (List Char × List (List Char) × List Char)
  | [] => none
  | c :: rest =>
    if c = '\x7b' then
      match scanClose rest with
      | none => none
      | some (inside, after) =>
        if inside.contains ',' then some ([], splitCommas inside, after) else none
    else
      match findBrace rest with
      | none => none
      | some (pre, alts, post) => some (c :: pre, alts, post)

/-- Brace expansion of a pattern (model of the brace-expansion package for
patterns with at most one flat alternation group, the shapes exercised
here).  A pattern without an expandable group stays as it is. -/
def braceExpand (s : String) : List String :=
  match findBrace s.data with
  | none => [s]
  | some (pre, alts, post) => alts.map (fun a => String.mk (pre ++ a ++ post))

/-- True when the string starts with a hash mark. -/
def startsHash (s : String) : Bool :=
  match s.data with
  | '#' :: _ => true
  | _ => false

/-- Full match of one minimatch pattern against an already split path.
Pipeline of Minimatch: a hash-initial pattern is a comment matching nothing
unless nocomment is set; negation prefixes are stripped; the pattern is
brace-expanded into a set unless nobrace is set; the path matches when any
expansion matches; the result is negated for a negated pattern.  An empty
pattern matches only the empty path. -/
def mmMatch (opts : MmOpts) (pattern : String) (fileSegs : List String) : Bool :=
  if !opts.nocomment && startsHash pattern then false
  else
    let np := parseNegate opts pattern
    let res :=
      if np.2 == "" then fileSegs == [""]
      else
        (if opts.nobrace then [np.2] else braceExpand np.2).any
          (fun ex => matchSegs opts ((splitSlash ex).map parseSeg) fileSegs)
    if np.1 then !res else res

/-! ## walker.js: compileExclusions and shouldExclude -/

/-- Model of compileExclusions: every pattern is compiled once with the
option set dot, nocase, nocomment into a predicate over the split relative
path. -/
def compileExclusions (patterns : List String) : List (List String → Bool) :=
  patterns.map (fun p => fun segs => mmMatch snapOpts p segs)

/-- Model of shouldExclude over the segment list of the root-relative path.
The empty segment list denotes the scan root, whose relative path collapses
to a dot before matching; with an empty matcher list the result is false,
exactly as the early return in shouldExclude. -/
def shouldExcludeSegs (ms : List (List String → Bool)) (segs : List String) : Bool :=
  ms.any (fun m => m (if segs.isEmpty then ["."] else segs))

end Snap

namespace Snap

/-! ## File-system model -/

/-- Metadata reported by one lstat call, already coerced as metadata.js
coerces it (millisecond timestamps floored to integers). -/
structure Meta where
  size : Nat
  mtime : Int
  ctime : Int
  btime : Int
  mode : Nat
  uid : Nat
  gid : Nat
  ino : Nat
  nlink : Nat
deriving DecidableEq, Repr

mutual
/-- One file-system node.  A file carries the result of calculateFileHash
on its content, modelled from the spec as some digest on success and none
on error (the source of calculateFileHash is not available; its declaration
types it as digest-or-null).  A dir carries a readable flag: false means
readdir on it throws, which the walker absorbs by treating the listing as
empty.  The constructor other stands for device, socket and fifo nodes, for
which getEntryData returns null; vanished stands for a path whose lstat
throws (entry gone or unreadable between listing and capture). -/
inductive FsTree where
  | file (meta : Meta) (hash : Option String)
  | dir (meta : Meta) (readable : Bool) (children : FsForest)
  | link (meta : Meta) (target : String)
  | other (meta : Meta)
  | vanished
/-- Ordered list of named children of a directory. -/
inductive FsForest where
  | nil
  | cons (name : String) (child : FsTree) (rest : FsForest)
end

/-- Conversion from a plain list of named children. -/
def FsForest.ofList : List (String × FsTree) → FsForest
  | [] => FsForest.nil
  | (n, c) :: rest => FsForest.cons n c (FsForest.ofList rest)

/-- Directory test, the Dirent.isDirectory dispatch of the walker (a
symlink is not a directory for lstat-typed dirents). -/
def FsTree.isDir : FsTree → Bool
  | FsTree.dir _ _ _ => true
  | _ => false

/-! ## walker.js: walk -/

mutual
/-- Model of the recursive generator walk in walker.js, returning the list
of yielded entries in yield order, each with the segment list of its
root-relative path paired with the node found there.  The current directory
is dropped entirely when excluded; otherwise it is yielded and its listing
is processed (an unreadable listing behaves as empty).  Each child is
checked against the matchers first; an excluded child is skipped without
recursion; a directory child is walked recursively (which checks it again);
any other child is yielded directly. -/
def walkList (ms : List (List String → Bool)) (segs : List String) (t : FsTree) :
    List (List String × FsTree) :=
  if shouldExcludeSegs ms segs then []
  else
    (segs, t) ::
      (match t with
       | FsTree.dir _ readable kids => if readable then walkKids ms segs kids else []
       | _ => [])
/-- Walk of the listed children of a directory at the given segment list. -/
def walkKids (ms : List (List String → Bool)) (segs : List String) :
    FsForest → List (List String × FsTree)
  | FsForest.nil => []
  | FsForest.cons name c rest =>
    (if shouldExcludeSegs ms (segs ++ [name]) then []
     else if c.isDir then walkList ms (segs ++ [name]) c
     else [(segs ++ [name], c)]) ++ walkKids ms segs rest
end

/-! ## metadata.js: getEntryData -/

/-- Row of the entries table, with the column set of initDb. -/
structure Row where
  path : String
  type : String
  size : Option Nat
  mtime : Int
  ctime : Int
  btime : Int
  mode : Nat
  uid : Nat
  gid : Nat
  ino : Nat
  nlink : Nat
  hash : Option String
  target : Option String
deriving DecidableEq, Repr

/-- Outcome of one getEntryData call: a thrown error, a silent null for an
unsupported node type, or one metadata row. -/
inductive CaptureResult where
  | err
  | skip
  | row (r : Row)
deriving DecidableEq, Repr

/-- Common part of the metadata object built by getEntryData before the
type dispatch: the relative path, the lstat numbers with the mode masked to
its permission bits, and null hash and target. -/
def baseRow (segs : List String) (m : Meta) : Row :=
  { path := renderSegs segs
    type := ""
    size := some m.size
    mtime := m.mtime
    ctime := m.ctime
    btime := m.btime
    mode := m.mode &&& 0o777
    uid := m.uid
    gid := m.gid
    ino := m.ino
    nlink := m.nlink
    hash := none
    target := none }

/-- Model of getEntryData: directories drop their size, symlinks keep their
size and record the normalized link target, files record the content hash
returned by calculateFileHash (possibly null), any other type yields null,
and a failing lstat is an error. -/
def getEntryData (segs : List String) : FsTree → CaptureResult
  | FsTree.vanished => CaptureResult.err
  | FsTree.other _ => CaptureResult.skip
  | FsTree.dir m _ _ => CaptureResult.row { baseRow segs m with type := "dir", size := none }
  | FsTree.link m tgt =>
    CaptureResult.row { baseRow segs m with type := "link", target := some (normSlashes tgt) }
  | FsTree.file m h => CaptureResult.row { baseRow segs m with type := "file", hash := h }

/-- Walk output paired with the capture outcome at every yielded path, the
stream the pipeline loop consumes. -/
def sigItems (ms : List (List String → Bool)) (t : FsTree) :
    List (List String × CaptureResult) :=
  (walkList ms [] t).map (fun it => (it.1, getEntryData it.1 it.2))

end Snap

namespace Snap

/-! ## database.js: initDb and calculateSnapshotContentHash -/

/-- Row of the users table. -/
structure UserRow where
  uid : Nat
  username : String
  gid : Option Nat
  gecos : Option String
  homedir : Option String
  shell : Option String
deriving DecidableEq, Repr

/-- Row of the groups table. -/
structure GroupRow where
  gid : Nat
  groupname : String
  members : Option String
deriving DecidableEq, Repr

/-- Ordering used between entry rows by SELECT star FROM entries ORDER BY
path ASC: byte order on the primary-key path. -/
def rowLeP (a b : Row) : Prop := pathLe a.path b.path = true

instance : DecidableRel rowLeP := fun a b => instDecidableEqBool (pathLe a.path b.path) true

/-- Digest of calculateSnapshotContentHash, modelled as the sequence of rows
folded into the incremental hash: all entry rows ordered by path, then all
user rows ordered by uid, then all group rows ordered by gid.  SHA-256 over
the canonical JSON serialization is injective on rows, so equality of
digests is equality of these three row sequences. -/
structure SignData where
  entriesPart : List Row
  usersPart : List UserRow
  groupsPart : List GroupRow
deriving DecidableEq, Repr

/-- Model of calculateSnapshotContentHash over the three table states at
the moment of the call. -/
def snapshotContentHash (entries : List Row) (users : List UserRow)
    (groups : List GroupRow) : SignData :=
  { entriesPart := List.insertionSort rowLeP entries
    usersPart := List.insertionSort (fun a b => a.uid ≤ b.uid) users
    groupsPart := List.insertionSort (fun a b => a.gid ≤ b.gid) groups }

/-- Model of initDb from database.js over the set of tables already present
in the database file.  The snapshot_info, users and groups tables are
created with IF NOT EXISTS and never fail; the entries table is created
without IF NOT EXISTS, so initDb throws exactly when an entries table is
already present, before anything else happens. -/
def initDb (existingTables : List String) : Except String (List String) :=
  if "entries" ∈ existingTables then Except.error "table entries already exists"
  else Except.ok (existingTables ++ ["snapshot_info", "entries", "users", "groups"])

/-! ## snapshot.js: createSnapshot -/

/-- One user of the identity lookup (parsed /etc/passwd line). -/
structure UserInfo where
  username : String
  uid : Nat
  gid : Nat
  gecos : String
  homedir : String
  shell : String
deriving DecidableEq, Repr

/-- One group of the identity lookup (parsed /etc/group line). -/
structure GroupInfo where
  groupname : String
  gid : Nat
  members : List String
deriving DecidableEq, Repr

/-- Ambient inputs of one run: the identity lookup of UserGroupInfo and the
values of the environment recorded verbatim in the manifest. -/
structure Env where
  user : Nat → Option UserInfo
  group : Nat → Option GroupInfo
  rootPath : String
  platform : String
  timeZone : String

/-- Row of the snapshot_info table (the manifest).  The wall-clock fields
are not modelled and stay 0; exclude_paths stores the serialized pattern
list, modelled by the list itself. -/
structure Manifest where
  version : String
  root_path : String
  scan_start : Nat
  scan_end : Nat
  scan_duration : Nat
  total_entries : Nat
  total_files : Nat
  total_dirs : Nat
  total_links : Nat
  total_size : Nat
  total_errors : Nat
  os_platform : String
  time_zone : String
  snapshot_hash : SignData
  exclude_paths : List String
deriving DecidableEq, Repr

/-- Observable outcome of one createSnapshot call: the committed entries
table, the users and groups tables, the manifest row if one was written,
the error counter, and the computed signature if the run got that far. -/
structure RunResult where
  entries : List Row
  users : List UserRow
  groups : List GroupRow
  manifest : Option Manifest
  errors : Nat
  sign : Option SignData
deriving Repr

/-- Mutable state of the scan loop of createSnapshot. -/
structure PipeState where
  db : List Row
  buffer : List Row
  count : Nat
  files : Nat
  dirs : Nat
  links : Nat
  totalSize : Nat
  errors : Nat
  flushAttempts : Nat
  foundUids : List Nat
  foundGids : List Nat
deriving Repr

/-- Initial loop state. -/
def initState : PipeState :=
  { db := [], buffer := [], count := 0, files := 0, dirs := 0, links := 0
    totalSize := 0, errors := 0, flushAttempts := 0, foundUids := [], foundGids := [] }

/-- Insertion into a JS Set modelled as an insertion-ordered duplicate-free
list. -/
def insertNew (l : List Nat) (x : Nat) : List Nat :=
  if x ∈ l then l else l ++ [x]

/-- Batched flush: once the buffer holds at least 200 rows the loop runs
one atomic transaction inserting them all.  The oracle says whether this
flush attempt throws; a throw lands in the per-entry catch, which counts
one error and leaves the buffer as it is (the transaction rolls back), so
work continues with the buffer uncleared. -/
def flushCheck (oracle : Nat → Bool) (st : PipeState) : PipeState :=
  if 200 ≤ st.buffer.length then
    if oracle st.flushAttempts then
      { st with errors := st.errors + 1, flushAttempts := st.flushAttempts + 1 }
    else
      { st with db := st.db ++ st.buffer, buffer := [], flushAttempts := st.flushAttempts + 1 }
  else st

/-- One iteration of the scan loop of createSnapshot on one walked path:
the root is skipped before capture; a capture error is counted and the
iteration ends; a null capture falls through to the flush check; a captured
row is dropped when its relative path is dot or dot-dot, and otherwise
feeds the uid and gid sets, the counters, the statistics and the buffer
before the flush check runs. -/
def stepEntry (oracle : Nat → Bool) (st : PipeState)
    (item : List String × CaptureResult) : PipeState :=
  if item.1.isEmpty then st
  else
    match item.2 with
    | CaptureResult.err => { st with errors := st.errors + 1 }
    | CaptureResult.skip => flushCheck oracle st
    | CaptureResult.row r =>
      if r.path == ".." || r.path == "." then st
      else
        flushCheck oracle
          { st with
            foundUids := insertNew st.foundUids r.uid
            foundGids := insertNew st.foundGids r.gid
            count := st.count + 1
            files := if r.type == "file" then st.files + 1 else st.files
            dirs := if r.type == "dir" then st.dirs + 1 else st.dirs
            links := if r.type == "link" then st.links + 1 else st.links
            totalSize := if r.type == "file" then st.totalSize + r.size.getD 0 else st.totalSize
            buffer := st.buffer ++ [r] }

/-- Insertion of one users row for an observed uid: the looked-up identity
when the lookup knows the uid, otherwise the synthetic placeholder row. -/
def mkUserRow (env : Env) (uid : Nat) : UserRow :=
  match env.user uid with
  | some u =>
    { uid := u.uid, username := u.username, gid := some u.gid, gecos := some u.gecos
      homedir := some u.homedir, shell := some u.shell }
  | none =>
    { uid := uid, username := "unknown_u" ++ toString uid, gid := none
      gecos := some "Unknown user", homedir := none, shell := none }

/-- Insertion of one groups row for an observed gid. -/
def mkGroupRow (env : Env) (gid : Nat) : GroupRow :=
  match env.group gid with
  | some g =>
    { gid := g.gid, groupname := g.groupname
      members := some (String.intercalate "," g.members) }
  | none => { gid := gid, groupname := "unknown_g" ++ toString gid, members := none }

/-- Tail of a successful run, in the statement order of createSnapshot:
the signature is computed from the committed tables at that point (the
entries just flushed, and the users and groups tables, which are still
empty in the fresh database); only then are the identity rows inserted for
every observed uid and gid; finally the one manifest row is written with
the counters, the statistics, the signature and the serialized pattern
list. -/
def finishRun (env : Env) (pats : List String) (db : List Row) (st : PipeState) : RunResult :=
  let sign := snapshotContentHash db [] []
  let users := st.foundUids.map (mkUserRow env)
  let groups := st.foundGids.map (mkGroupRow env)
  { entries := db
    users := users
    groups := groups
    manifest := some
      { version := "1.0.0"
        root_path := env.rootPath
        scan_start := 0
        scan_end := 0
        scan_duration := 0
        total_entries := st.count
        total_files := st.files
        total_dirs := st.dirs
        total_links := st.links
        total_size := st.totalSize
        total_errors := st.errors
        os_platform := env.platform
        time_zone := env.timeZone
        snapshot_hash := sign
        exclude_paths := pats }
    errors := st.errors
    sign := some sign }

/-- Model of the pipeline of createSnapshot on a given capture stream: the
scan loop folds over the stream; the remaining partial batch is flushed by
a direct transaction call outside the per-entry try, so a throw there is
fatal: the run aborts with the already committed batches still in the
entries table and no manifest row.  Otherwise the run finishes with
signature, identity rows and manifest. -/
def runItems (env : Env) (oracle : Nat → Bool) (pats : List String)
    (sitems : List (List String × CaptureResult)) : RunResult :=
  let st := sitems.foldl (stepEntry oracle) initState
  if 0 < st.buffer.length then
    if oracle st.flushAttempts then
      { entries := st.db, users := [], groups := [], manifest := none
        errors := st.errors, sign := none }
    else finishRun env pats (st.db ++ st.buffer) st
  else finishRun env pats st.db st

/-- Model of createSnapshot after a successful initDb: walk the tree from
the root with the compiled matchers and feed every yielded path through
getEntryData into the scan loop. -/
def runPipeline (env : Env) (oracle : Nat → Bool) (t : FsTree) (pats : List String) :
    RunResult :=
  runItems env oracle pats (sigItems (compileExclusions pats) t)

/-- Model of the whole createSnapshot call including database
initialization: initDb runs before the try block of the pipeline, so its
exception propagates to the caller as a rejection, before any walking,
capture or persistence happens; only after a successful initDb does the
pipeline run. -/
def createSnapshot (existingTables : List String) (env : Env) (oracle : Nat → Bool)
    (t : FsTree) (pats : List String) : Except String RunResult :=
  match initDb existingTables with
  | Except.error e => Except.error e
  | Except.ok _ => Except.ok (runPipeline env oracle t pats)

end Snap

namespace Snap

/-! ## Order facts about the path comparison -/

theorem char_eq_of_toNat_eq {a b : Char} (h : a.toNat = b.toNat) : a = b := by
  apply Char.eq_of_val_eq
  apply UInt32.eq_of_val_eq
  exact Fin.ext h

theorem chListLe_refl : ∀ l : List Char, chListLe l l = true := by
  intro l
  induction l with
  | nil => rfl
  | cons a as ih => simp [chListLe, ih]

theorem chListLe_total : ∀ a b : List Char, chListLe a b = true ∨ chListLe b a = true := by
  intro a
  induction a with
  | nil => intro b; left; rfl
  | cons x xs ih =>
    intro b
    cases b with
    | nil => right; rfl
    | cons y ys =>
      simp only [chListLe]
      rcases Nat.lt_trichotomy x.toNat y.toNat with h | h | h
      · left; simp [h]
      · have hxy : x = y := char_eq_of_toNat_eq h
        subst hxy
        simp only [Nat.lt_irrefl, if_false]
        exact ih ys
      · right; simp [h, Nat.not_lt.mpr (Nat.le_of_lt h)]

theorem chListLe_trans :
    ∀ a b c : List Char, chListLe a b = true → chListLe b c = true → chListLe a c = true := by
  intro a
  induction a with
  | nil => intro b c _ _; rfl
  | cons x xs ih =>
    intro b c hab hbc
    cases b with
    | nil => simp [chListLe] at hab
    | cons y ys =>
      cases c with
      | nil => simp [chListLe] at hbc
      | cons z zs =>
        simp only [chListLe] at hab hbc ⊢
        rcases Nat.lt_trichotomy x.toNat y.toNat with h1 | h1 | h1
        · rcases Nat.lt_trichotomy y.toNat z.toNat with h2 | h2 | h2
          · simp [Nat.lt_trans h1 h2]
          · simp [h2 ▸ h1]
          · simp only [if_neg (Nat.lt_asymm h2), if_pos h2] at hbc
            exact absurd hbc (by simp)
        · have hxy : x = y := char_eq_of_toNat_eq h1
          subst hxy
          simp only [Nat.lt_irrefl, if_false] at hab ⊢
          rcases Nat.lt_trichotomy x.toNat z.toNat with h2 | h2 | h2
          · simp [h2]
          · have hxz : x = z := char_eq_of_toNat_eq h2
            subst hxz
            simp only [Nat.lt_irrefl, if_false] at hbc ⊢
            exact ih ys zs hab hbc
          · simp only [if_neg (Nat.lt_asymm h2), if_pos h2] at hbc
            exact absurd hbc (by simp)
        · simp only [if_neg (Nat.lt_asymm h1), if_pos h1] at hab
          exact absurd hab (by simp)

theorem chListLe_antisymm :
    ∀ a b : List Char, chListLe a b = true → chListLe b a = true → a = b := by
  intro a
  induction a with
  | nil =>
    intro b _ hba
    cases b with
    | nil => rfl
    | cons y ys => simp [chListLe] at hba
  | cons x xs ih =>
    intro b hab hba
    cases b with
    | nil => simp [chListLe] at hab
    | cons y ys =>
      simp only [chListLe] at hab hba
      rcases Nat.lt_trichotomy x.toNat y.toNat with h | h | h
      · simp only [if_neg (Nat.lt_asymm h), if_pos h] at hba
        exact absurd hba (by simp)
      · have hxy : x = y := char_eq_of_toNat_eq h
        subst hxy
        simp only [Nat.lt_irrefl, if_false] at hab hba
        rw [ih ys hab hba]
      · simp only [if_neg (Nat.lt_asymm h), if_pos h] at hab
        exact absurd hab (by simp)

theorem string_ext {a b : String} (h : a.data = b.data) : a = b := by
  cases a
  cases b
  exact congrArg String.mk (by simpa using h)

theorem pathLe_refl (s : String) : pathLe s s = true := chListLe_refl s.data

theorem pathLe_total (a b : String) : pathLe a b = true ∨ pathLe b a = true :=
  chListLe_total a.data b.data

theorem pathLe_trans {a b c : String} (h1 : pathLe a b = true) (h2 : pathLe b c = true) :
    pathLe a c = true := chListLe_trans a.data b.data c.data h1 h2

theorem pathLe_antisymm {a b : String} (h1 : pathLe a b = true) (h2 : pathLe b a = true) :
    a = b := string_ext (chListLe_antisymm a.data b.data h1 h2)

instance : IsTotal Row rowLeP := ⟨fun a b => pathLe_total a.path b.path⟩

instance : IsTrans Row rowLeP := ⟨fun _ _ _ h1 h2 => pathLe_trans h1 h2⟩

/-- Two sorted row lists that are permutations of each other and have
duplicate-free paths are equal.  This is the determinism core of ORDER BY
over the primary key: the sorted sequence depends only on the row set. -/
theorem sorted_perm_nodup_paths_eq :
    ∀ (l1 l2 : List Row), List.Perm l1 l2 → List.Sorted rowLeP l1 → List.Sorted rowLeP l2 →
      (l1.map Row.path).Nodup → l1 = l2 := by
  intro l1
  induction l1 with
  | nil =>
    intro l2 hp _ _ _
    exact (hp.symm.eq_nil).symm
  | cons a t1 ih =>
    intro l2 hp hs1 hs2 hnd
    cases l2 with
    | nil => exact absurd hp.eq_nil (by simp)
    | cons b t2 =>
      have hnd1 : a.path ∉ t1.map Row.path ∧ (t1.map Row.path).Nodup := by
        rw [List.map_cons, List.nodup_cons] at hnd
        exact hnd
      have hab : a ∈ b :: t2 := hp.subset (List.mem_cons_self a t1)
      have hba : b ∈ a :: t1 := hp.symm.subset (List.mem_cons_self b t2)
      have hle1 : rowLeP a b := by
        rcases List.mem_cons.mp hba with h | h
        · rw [h]
          show pathLe a.path a.path = true
          exact pathLe_refl a.path
        · exact List.rel_of_sorted_cons hs1 b h
      have hle2 : rowLeP b a := by
        rcases List.mem_cons.mp hab with h | h
        · rw [h]
          show pathLe b.path b.path = true
          exact pathLe_refl b.path
        · exact List.rel_of_sorted_cons hs2 a h
      have hpatheq : a.path = b.path := pathLe_antisymm hle1 hle2
      have habeq : a = b := by
        rcases List.mem_cons.mp hba with h | h
        · exact h.symm
        · exfalso
          apply hnd1.1
          rw [hpatheq]
          exact List.mem_map_of_mem Row.path h
      subst habeq
      have hpt : List.Perm t1 t2 := hp.cons_inv
      have heq : t1 = t2 :=
        ih t2 hpt (List.Sorted.of_cons hs1) (List.Sorted.of_cons hs2) hnd1.2
      rw [heq]

end Snap

namespace Snap

/-! ## Pipeline loop invariant -/

/-- Row actually persisted for one walked item: none when the item is the
root, its capture threw, its capture returned null for an unsupported node
type, or its relative path is dot or dot-dot. -/
def cap (item : List String × CaptureResult) : Option Row :=
  if item.1.isEmpty then none
  else
    match item.2 with
    | CaptureResult.row r => if r.path == ".." || r.path == "." then none else some r
    | _ => none

/-- Rows the loop pushes into the buffer, in stream order. -/
def capturedRows (sitems : List (List String × CaptureResult)) : List Row :=
  sitems.filterMap cap

/-- Number of rows of one entry type. -/
def countType (ty : String) (l : List Row) : Nat :=
  (l.filter (fun r => r.type == ty)).length

/-- Sum of the sizes of the file rows of a list, a null size counting 0. -/
def sumFileSizes (l : List Row) : Nat :=
  ((l.filter (fun r => r.type == "file")).map (fun r => r.size.getD 0)).sum

theorem flushCheck_db_buffer (oracle : Nat → Bool) (st : PipeState) :
    (flushCheck oracle st).db ++ (flushCheck oracle st).buffer = st.db ++ st.buffer ∧
    (flushCheck oracle st).count = st.count ∧
    (flushCheck oracle st).files = st.files ∧
    (flushCheck oracle st).dirs = st.dirs ∧
    (flushCheck oracle st).links = st.links ∧
    (flushCheck oracle st).totalSize = st.totalSize := by
  unfold flushCheck
  split
  · split <;> simp
  · simp

theorem stepEntry_inv (oracle : Nat → Bool) (st : PipeState)
    (item : List String × CaptureResult) :
    (stepEntry oracle st item).db ++ (stepEntry oracle st item).buffer =
      (st.db ++ st.buffer) ++ (cap item).toList ∧
    (stepEntry oracle st item).count = st.count + (cap item).toList.length ∧
    (stepEntry oracle st item).files = st.files + countType "file" (cap item).toList ∧
    (stepEntry oracle st item).dirs = st.dirs + countType "dir" (cap item).toList ∧
    (stepEntry oracle st item).links = st.links + countType "link" (cap item).toList ∧
    (stepEntry oracle st item).totalSize = st.totalSize + sumFileSizes (cap item).toList := by
  unfold stepEntry cap
  by_cases hroot : item.1.isEmpty
  · simp [hroot, countType, sumFileSizes]
  · simp only [hroot, Bool.false_eq_true, if_false]
    cases hcr : item.2 with
    | err => simp [countType, sumFileSizes]
    | skip =>
      have h := flushCheck_db_buffer oracle st
      simp [h.1, h.2.1, h.2.2.1, h.2.2.2.1, h.2.2.2.2.1, h.2.2.2.2.2, countType, sumFileSizes]
    | row r =>
      by_cases hdot : (r.path == ".." || r.path == ".") = true
      · simp [hdot, countType, sumFileSizes]
      · simp only [hdot, Bool.false_eq_true, if_false, Option.toList_some]
        have h := flushCheck_db_buffer oracle
          { st with
            foundUids := insertNew st.foundUids r.uid
            foundGids := insertNew st.foundGids r.gid
            count := st.count + 1
            files := if r.type == "file" then st.files + 1 else st.files
            dirs := if r.type == "dir" then st.dirs + 1 else st.dirs
            links := if r.type == "link" then st.links + 1 else st.links
            totalSize := if r.type == "file" then st.totalSize + r.size.getD 0 else st.totalSize
            buffer := st.buffer ++ [r] }
        refine ⟨?_, ?_, ?_, ?_, ?_, ?_⟩
        · rw [h.1]; simp
        · rw [h.2.1]; simp [countType]
        · rw [h.2.2.1]; simp only [countType, List.filter, List.length]
          by_cases hty : (r.type == "file") = true <;> simp [hty]
        · rw [h.2.2.2.1]; simp only [countType, List.filter, List.length]
          by_cases hty : (r.type == "dir") = true <;> simp [hty]
        · rw [h.2.2.2.2.1]; simp only [countType, List.filter, List.length]
          by_cases hty : (r.type == "link") = true <;> simp [hty]
        · rw [h.2.2.2.2.2]; simp only [sumFileSizes, List.filter]
          by_cases hty : (r.type == "file") = true <;> simp [hty]

theorem fold_inv (oracle : Nat → Bool) :
    ∀ (sitems : List (List String × CaptureResult)) (st : PipeState),
    (sitems.foldl (stepEntry oracle) st).db ++ (sitems.foldl (stepEntry oracle) st).buffer =
      (st.db ++ st.buffer) ++ capturedRows sitems ∧
    (sitems.foldl (stepEntry oracle) st).count = st.count + (capturedRows sitems).length ∧
    (sitems.foldl (stepEntry oracle) st).files = st.files + countType "file" (capturedRows sitems) ∧
    (sitems.foldl (stepEntry oracle) st).dirs = st.dirs + countType "dir" (capturedRows sitems) ∧
    (sitems.foldl (stepEntry oracle) st).links = st.links + countType "link" (capturedRows sitems) ∧
    (sitems.foldl (stepEntry oracle) st).totalSize =
      st.totalSize + sumFileSizes (capturedRows sitems) := by
  intro sitems
  induction sitems with
  | nil => intro st; simp [capturedRows, countType, sumFileSizes]
  | cons it rest ih =>
    intro st
    have hstep := stepEntry_inv oracle st it
    have hrest := ih (stepEntry oracle st it)
    simp only [List.foldl_cons]
    have hcapcons : capturedRows (it :: rest) = (cap it).toList ++ capturedRows rest := by
      cases hc : cap it <;> simp [capturedRows, List.filterMap_cons, hc]
    have hcount : countType "file" (capturedRows (it :: rest)) =
        countType "file" (cap it).toList + countType "file" (capturedRows rest) := by
      rw [hcapcons]; simp [countType, List.filter_append]
    have hcountd : countType "dir" (capturedRows (it :: rest)) =
        countType "dir" (cap it).toList + countType "dir" (capturedRows rest) := by
      rw [hcapcons]; simp [countType, List.filter_append]
    have hcountl : countType "link" (capturedRows (it :: rest)) =
        countType "link" (cap it).toList + countType "link" (capturedRows rest) := by
      rw [hcapcons]; simp [countType, List.filter_append]
    have hsum : sumFileSizes (capturedRows (it :: rest)) =
        sumFileSizes (cap it).toList + sumFileSizes (capturedRows rest) := by
      rw [hcapcons]; simp [sumFileSizes, List.filter_append]
    refine ⟨?_, ?_, ?_, ?_, ?_, ?_⟩
    · rw [hrest.1, hstep.1, hcapcons]; simp
    · rw [hrest.2.1, hstep.2.1, hcapcons]; simp; omega
    · rw [hrest.2.2.1, hstep.2.2.1, hcount]; omega
    · rw [hrest.2.2.2.1, hstep.2.2.2.1, hcountd]; omega
    · rw [hrest.2.2.2.2.1, hstep.2.2.2.2.1, hcountl]; omega
    · rw [hrest.2.2.2.2.2, hstep.2.2.2.2.2, hsum]; omega

end Snap


namespace Snap

/-! ## Outcome characterization of one run -/

theorem fold_inv0 (oracle : Nat → Bool) (sitems : List (List String × CaptureResult)) :
    (sitems.foldl (stepEntry oracle) initState).db ++
      (sitems.foldl (stepEntry oracle) initState).buffer = capturedRows sitems ∧
    (sitems.foldl (stepEntry oracle) initState).count = (capturedRows sitems).length ∧
    (sitems.foldl (stepEntry oracle) initState).files = countType "file" (capturedRows sitems) ∧
    (sitems.foldl (stepEntry oracle) initState).dirs = countType "dir" (capturedRows sitems) ∧
    (sitems.foldl (stepEntry oracle) initState).links = countType "link" (capturedRows sitems) ∧
    (sitems.foldl (stepEntry oracle) initState).totalSize = sumFileSizes (capturedRows sitems) := by
  have h := fold_inv oracle sitems initState
  have h1 : (sitems.foldl (stepEntry oracle) initState).db ++
      (sitems.foldl (stepEntry oracle) initState).buffer = capturedRows sitems := h.1
  have h2 : (sitems.foldl (stepEntry oracle) initState).count =
      0 + (capturedRows sitems).length := h.2.1
  have h3 : (sitems.foldl (stepEntry oracle) initState).files =
      0 + countType "file" (capturedRows sitems) := h.2.2.1
  have h4 : (sitems.foldl (stepEntry oracle) initState).dirs =
      0 + countType "dir" (capturedRows sitems) := h.2.2.2.1
  have h5 : (sitems.foldl (stepEntry oracle) initState).links =
      0 + countType "link" (capturedRows sitems) := h.2.2.2.2.1
  have h6 : (sitems.foldl (stepEntry oracle) initState).totalSize =
      0 + sumFileSizes (capturedRows sitems) := h.2.2.2.2.2
  exact ⟨h1, by omega, by omega, by omega, by omega, by omega⟩

theorem runItems_manifest_spec (env : Env) (oracle : Nat → Bool) (pats : List String)
    (sitems : List (List String × CaptureResult)) (m : Manifest)
    (hm : (runItems env oracle pats sitems).manifest = some m) :
    (runItems env oracle pats sitems).entries = capturedRows sitems ∧
    m.total_entries = (capturedRows sitems).length ∧
    m.total_files = countType "file" (capturedRows sitems) ∧
    m.total_dirs = countType "dir" (capturedRows sitems) ∧
    m.total_links = countType "link" (capturedRows sitems) ∧
    m.total_size = sumFileSizes (capturedRows sitems) ∧
    m.snapshot_hash = snapshotContentHash (capturedRows sitems) [] [] := by
  have hinv := fold_inv0 oracle sitems
  unfold runItems at hm ⊢
  by_cases hlen : 0 < (sitems.foldl (stepEntry oracle) initState).buffer.length
  · simp only [hlen, if_true] at hm ⊢
    by_cases ho : oracle (sitems.foldl (stepEntry oracle) initState).flushAttempts = true
    · simp [ho] at hm
    · simp only [ho, Bool.false_eq_true, if_false] at hm ⊢
      have hdb : (sitems.foldl (stepEntry oracle) initState).db ++
          (sitems.foldl (stepEntry oracle) initState).buffer = capturedRows sitems := hinv.1
      unfold finishRun at hm ⊢
      simp only [Option.some.injEq] at hm
      subst hm
      simp [hdb, hinv.2.1, hinv.2.2.1, hinv.2.2.2.1, hinv.2.2.2.2.1, hinv.2.2.2.2.2]
  · simp only [hlen, if_false] at hm ⊢
    have hbuf : (sitems.foldl (stepEntry oracle) initState).buffer = [] := by
      cases hb : (sitems.foldl (stepEntry oracle) initState).buffer with
      | nil => rfl
      | cons x xs => exact absurd (by rw [hb]; simp) hlen
    have hdb : (sitems.foldl (stepEntry oracle) initState).db = capturedRows sitems := by
      have h1 := hinv.1
      rw [hbuf, List.append_nil] at h1
      exact h1
    unfold finishRun at hm ⊢
    simp only [Option.some.injEq] at hm
    subst hm
    simp [hdb, hinv.2.1, hinv.2.2.1, hinv.2.2.2.1, hinv.2.2.2.2.1, hinv.2.2.2.2.2]

theorem runItems_entries_sub (env : Env) (oracle : Nat → Bool) (pats : List String)
    (sitems : List (List String × CaptureResult)) (r : Row)
    (hr : r ∈ (runItems env oracle pats sitems).entries) : r ∈ capturedRows sitems := by
  have hinv := fold_inv0 oracle sitems
  unfold runItems at hr
  rw [← hinv.1]
  by_cases hlen : 0 < (sitems.foldl (stepEntry oracle) initState).buffer.length
  · simp only [hlen, if_true] at hr
    by_cases ho : oracle (sitems.foldl (stepEntry oracle) initState).flushAttempts = true
    · simp only [ho, if_true] at hr
      exact List.mem_append_left _ hr
    · simp only [ho, Bool.false_eq_true, if_false] at hr
      unfold finishRun at hr
      exact hr
  · simp only [hlen, if_false] at hr
    unfold finishRun at hr
    exact List.mem_append_left _ hr

theorem runItems_manifest_isSome (env : Env) (pats : List String)
    (sitems : List (List String × CaptureResult)) :
    (runItems env (fun _ => false) pats sitems).manifest.isSome = true := by
  unfold runItems
  by_cases hlen : 0 < (sitems.foldl (stepEntry (fun _ => false)) initState).buffer.length
  · simp [hlen, finishRun]
  · simp [hlen, finishRun]

end Snap

namespace Snap

/-! ## Walk facts -/

mutual
/-- Every entry the walker yields has passed the exclusion check on its own
relative path: directories are checked on entry to their own walk call and
every other yield is guarded at its parent. -/
theorem walkList_excl (ms : List (List String → Bool)) (segs : List String) (t : FsTree) :
    ∀ it ∈ walkList ms segs t, shouldExcludeSegs ms it.1 = false := by
  intro it hit
  unfold walkList at hit
  by_cases h : shouldExcludeSegs ms segs = true
  · simp [h] at hit
  · simp only [h, Bool.false_eq_true, if_false, List.mem_cons] at hit
    rcases hit with heq | hmem
    · rw [heq]
      exact Bool.not_eq_true _ ▸ (by simpa using h)
    · cases t with
      | dir m readable kids =>
        by_cases hread : readable = true
        · simp only [hread, if_true] at hmem
          exact walkKids_excl ms segs kids it hmem
        · simp only [Bool.not_eq_true] at hread
          simp [hread] at hmem
      | file m hash => simp at hmem
      | link m tgt => simp at hmem
      | other m => simp at hmem
      | vanished => simp at hmem
/-- Every entry yielded from a child list has passed the exclusion check. -/
theorem walkKids_excl (ms : List (List String → Bool)) (segs : List String) (kids : FsForest) :
    ∀ it ∈ walkKids ms segs kids, shouldExcludeSegs ms it.1 = false := by
  intro it hit
  cases kids with
  | nil => simp [walkKids] at hit
  | cons name c rest =>
    unfold walkKids at hit
    rcases List.mem_append.mp hit with h1 | h2
    · by_cases hex : shouldExcludeSegs ms (segs ++ [name]) = true
      · simp [hex] at h1
      · simp only [hex, Bool.false_eq_true, if_false] at h1
        by_cases hd : c.isDir = true
        · simp only [hd, if_true] at h1
          exact walkList_excl ms (segs ++ [name]) c it h1
        · simp only [Bool.not_eq_true] at hd
          simp only [hd, Bool.false_eq_true, if_false, List.mem_singleton] at h1
          rw [h1]
          simpa using hex
    · exact walkKids_excl ms segs rest it h2
end

end Snap

namespace Snap

/-- Well-formedness of one file name as readdir reports it: nonempty, not
the dot or dot-dot entries, and free of the path separator. -/
def validName (s : String) : Bool :=
  !s.data.isEmpty && s != "." && s != ".." && !s.data.contains '/'

mutual
/-- Well-formedness of a tree: every directory entry name is a valid name. -/
def validTree : FsTree → Bool
  | FsTree.dir _ _ kids => validForest kids
  | _ => true
/-- Well-formedness of a child list. -/
def validForest : FsForest → Bool
  | FsForest.nil => true
  | FsForest.cons name c rest => validName name && validTree c && validForest rest
end

mutual
/-- Over a well-formed tree, every yielded entry except the root has a
segment list of valid names, extending the valid prefix it was called
with. -/
theorem walkList_valid (ms : List (List String → Bool)) (segs : List String) (t : FsTree)
    (hsegs : ∀ s ∈ segs, validName s = true) (ht : validTree t = true) :
    ∀ it ∈ walkList ms segs t, ∀ s ∈ it.1, validName s = true := by
  intro it hit
  unfold walkList at hit
  by_cases h : shouldExcludeSegs ms segs = true
  · simp [h] at hit
  · simp only [h, Bool.false_eq_true, if_false, List.mem_cons] at hit
    rcases hit with heq | hmem
    · rw [heq]
      exact hsegs
    · cases t with
      | dir m readable kids =>
        by_cases hread : readable = true
        · simp only [hread, if_true] at hmem
          exact walkKids_valid ms segs kids hsegs (by simpa [validTree] using ht) it hmem
        · simp only [Bool.not_eq_true] at hread
          simp [hread] at hmem
      | file m hash => simp at hmem
      | link m tgt => simp at hmem
      | other m => simp at hmem
      | vanished => simp at hmem
/-- Child-list version of walkList_valid. -/
theorem walkKids_valid (ms : List (List String → Bool)) (segs : List String) (kids : FsForest)
    (hsegs : ∀ s ∈ segs, validName s = true) (hk : validForest kids = true) :
    ∀ it ∈ walkKids ms segs kids, ∀ s ∈ it.1, validName s = true := by
  intro it hit
  cases kids with
  | nil => simp [walkKids] at hit
  | cons name c rest =>
    unfold walkKids at hit
    have hk0 : (validName name = true ∧ validTree c = true) ∧ validForest rest = true := by
      simpa [validForest, Bool.and_eq_true] using hk
    have hk1 : validName name = true ∧ validTree c = true ∧ validForest rest = true :=
      ⟨hk0.1.1, hk0.1.2, hk0.2⟩
    have hsegs1 : ∀ s ∈ segs ++ [name], validName s = true := by
      intro s hs
      rcases List.mem_append.mp hs with h1 | h1
      · exact hsegs s h1
      · rw [List.mem_singleton.mp h1]
        exact hk1.1
    rcases List.mem_append.mp hit with h1 | h2
    · by_cases hex : shouldExcludeSegs ms (segs ++ [name]) = true
      · simp [hex] at h1
      · simp only [hex, Bool.false_eq_true, if_false] at h1
        by_cases hd : c.isDir = true
        · simp only [hd, if_true] at h1
          exact walkList_valid ms (segs ++ [name]) c hsegs1 hk1.2.1 it h1
        · simp only [Bool.not_eq_true] at hd
          simp only [hd, Bool.false_eq_true, if_false, List.mem_singleton] at h1
          rw [h1]
          exact hsegs1
    · exact walkKids_valid ms segs rest hsegs hk1.2.2 it h2
end

mutual
/-- True when every file node of the tree carries a successful content
hash. -/
def allHashed : FsTree → Bool
  | FsTree.file _ h => h.isSome
  | FsTree.dir _ _ kids => allHashedForest kids
  | _ => true
/-- Child-list version of allHashed. -/
def allHashedForest : FsForest → Bool
  | FsForest.nil => true
  | FsForest.cons _ c rest => allHashed c && allHashedForest rest
end

mutual
/-- Over a tree whose file hashes all succeeded, every node the walker
yields also has all its file hashes successful. -/
theorem walkList_allHashed (ms : List (List String → Bool)) (segs : List String) (t : FsTree)
    (ht : allHashed t = true) :
    ∀ it ∈ walkList ms segs t, allHashed it.2 = true := by
  intro it hit
  unfold walkList at hit
  by_cases h : shouldExcludeSegs ms segs = true
  · simp [h] at hit
  · simp only [h, Bool.false_eq_true, if_false, List.mem_cons] at hit
    rcases hit with heq | hmem
    · rw [heq]
      exact ht
    · cases t with
      | dir m readable kids =>
        by_cases hread : readable = true
        · simp only [hread, if_true] at hmem
          exact walkKids_allHashed ms segs kids (by simpa [allHashed] using ht) it hmem
        · simp only [Bool.not_eq_true] at hread
          simp [hread] at hmem
      | file m hash => simp at hmem
      | link m tgt => simp at hmem
      | other m => simp at hmem
      | vanished => simp at hmem
/-- Child-list version of walkList_allHashed. -/
theorem walkKids_allHashed (ms : List (List String → Bool)) (segs : List String)
    (kids : FsForest) (hk : allHashedForest kids = true) :
    ∀ it ∈ walkKids ms segs kids, allHashed it.2 = true := by
  intro it hit
  cases kids with
  | nil => simp [walkKids] at hit
  | cons name c rest =>
    unfold walkKids at hit
    have hk1 : allHashed c = true ∧ allHashedForest rest = true := by
      simpa [allHashedForest, Bool.and_eq_true] using hk
    rcases List.mem_append.mp hit with h1 | h2
    · by_cases hex : shouldExcludeSegs ms (segs ++ [name]) = true
      · simp [hex] at h1
      · simp only [hex, Bool.false_eq_true, if_false] at h1
        by_cases hd : c.isDir = true
        · simp only [hd, if_true] at h1
          exact walkList_allHashed ms (segs ++ [name]) c hk1.1 it h1
        · simp only [Bool.not_eq_true] at hd
          simp only [hd, Bool.false_eq_true, if_false, List.mem_singleton] at h1
          rw [h1]
          exact hk1.1
    · exact walkKids_allHashed ms segs rest hk1.2 it h2
end

end Snap

namespace Snap

mutual
/-- Replacement of every unreadable directory by a readable directory with
an empty listing, the subtree-as-empty reading of a failing readdir. -/
def pruneUnreadable : FsTree → FsTree
  | FsTree.dir m r kids =>
    if r then FsTree.dir m true (pruneForest kids) else FsTree.dir m true FsForest.nil
  | t => t
/-- Child-list version of pruneUnreadable. -/
def pruneForest : FsForest → FsForest
  | FsForest.nil => FsForest.nil
  | FsForest.cons name c rest => FsForest.cons name (pruneUnreadable c) (pruneForest rest)
end

theorem pruneUnreadable_isDir (t : FsTree) : (pruneUnreadable t).isDir = t.isDir := by
  cases t with
  | dir m r kids =>
    by_cases hr : r = true
    · simp [pruneUnreadable, hr, FsTree.isDir]
    · simp only [Bool.not_eq_true] at hr
      simp [pruneUnreadable, hr, FsTree.isDir]
  | file m h => rfl
  | link m tgt => rfl
  | other m => rfl
  | vanished => rfl

theorem getEntryData_prune (segs : List String) (t : FsTree) :
    getEntryData segs (pruneUnreadable t) = getEntryData segs t := by
  cases t with
  | dir m r kids =>
    by_cases hr : r = true
    · simp [pruneUnreadable, hr, getEntryData]
    · simp only [Bool.not_eq_true] at hr
      simp [pruneUnreadable, hr, getEntryData]
  | file m h => rfl
  | link m tgt => rfl
  | other m => rfl
  | vanished => rfl

/-- Capture view of a walked list: the stream the pipeline loop sees. -/
def sigOf (l : List (List String × FsTree)) : List (List String × CaptureResult) :=
  l.map (fun it => (it.1, getEntryData it.1 it.2))

mutual
/-- The capture stream of a walk does not change when every unreadable
directory is replaced by an empty readable one: a failing listing and an
empty listing are indistinguishable to the pipeline. -/
theorem walkList_prune (ms : List (List String → Bool)) (segs : List String) (t : FsTree) :
    sigOf (walkList ms segs (pruneUnreadable t)) = sigOf (walkList ms segs t) := by
  cases t with
  | dir m r kids =>
    by_cases hr : r = true
    · subst hr
      have hpr : pruneUnreadable (FsTree.dir m true kids) =
          FsTree.dir m true (pruneForest kids) := by
        simp [pruneUnreadable]
      rw [hpr]
      unfold walkList
      by_cases h : shouldExcludeSegs ms segs = true
      · simp [h]
      · simp only [h, Bool.false_eq_true, if_false, if_true]
        simp only [sigOf, List.map_cons]
        have hk := walkKids_prune ms segs kids
        simp only [sigOf] at hk
        rw [hk]
        simp [getEntryData]
    · simp only [Bool.not_eq_true] at hr
      subst hr
      have hpr : pruneUnreadable (FsTree.dir m false kids) = FsTree.dir m true FsForest.nil := by
        simp [pruneUnreadable]
      rw [hpr]
      unfold walkList
      by_cases h : shouldExcludeSegs ms segs = true
      · simp [h]
      · simp only [h, Bool.false_eq_true, if_false]
        simp [sigOf, walkKids, getEntryData]
  | file m h => rfl
  | link m tgt => rfl
  | other m => rfl
  | vanished => rfl
/-- Child-list version of walkList_prune. -/
theorem walkKids_prune (ms : List (List String → Bool)) (segs : List String) (kids : FsForest) :
    sigOf (walkKids ms segs (pruneForest kids)) = sigOf (walkKids ms segs kids) := by
  cases kids with
  | nil => rfl
  | cons name c rest =>
    show sigOf (walkKids ms segs (FsForest.cons name (pruneUnreadable c) (pruneForest rest))) = _
    unfold walkKids
    simp only [sigOf, List.map_append]
    have hrest := walkKids_prune ms segs rest
    simp only [sigOf] at hrest
    rw [hrest]
    by_cases hex : shouldExcludeSegs ms (segs ++ [name]) = true
    · simp [hex]
    · simp only [hex, Bool.false_eq_true, if_false]
      rw [pruneUnreadable_isDir]
      by_cases hd : c.isDir = true
      · simp only [hd, if_true]
        have hc := walkList_prune ms (segs ++ [name]) c
        simp only [sigOf] at hc
        rw [hc]
      · simp only [Bool.not_eq_true] at hd
        simp only [hd, Bool.false_eq_true, if_false]
        simp [getEntryData_prune]
end

end Snap

namespace Snap

/-! ## Shape of captured rows -/

theorem getEntryData_row_facts (segs : List String) (t : FsTree) (r : Row)
    (h : getEntryData segs t = CaptureResult.row r) :
    r.path = renderSegs segs ∧
    (r.type = "file" ∨ r.type = "dir" ∨ r.type = "link") ∧
    (r.type = "file" → r.target = none ∧ ∃ m h0, t = FsTree.file m h0 ∧ r.hash = h0) ∧
    (r.type = "dir" → r.hash = none ∧ r.target = none ∧ r.size = none) ∧
    (r.type = "link" → r.hash = none ∧ r.target.isSome = true) := by
  cases t with
  | file m h0 =>
    simp only [getEntryData, CaptureResult.row.injEq] at h
    subst h
    refine ⟨rfl, Or.inl rfl, ?_, ?_, ?_⟩
    · intro _
      exact ⟨rfl, m, h0, rfl, rfl⟩
    · intro hd
      exact absurd hd (by simp [baseRow])
    · intro hd
      exact absurd hd (by simp [baseRow])
  | dir m rd kids =>
    simp only [getEntryData, CaptureResult.row.injEq] at h
    subst h
    refine ⟨rfl, Or.inr (Or.inl rfl), ?_, ?_, ?_⟩
    · intro hd
      exact absurd hd (by simp [baseRow])
    · intro _
      exact ⟨rfl, rfl, rfl⟩
    · intro hd
      exact absurd hd (by simp [baseRow])
  | link m tgt =>
    simp only [getEntryData, CaptureResult.row.injEq] at h
    subst h
    refine ⟨rfl, Or.inr (Or.inr rfl), ?_, ?_, ?_⟩
    · intro hd
      exact absurd hd (by simp [baseRow])
    · intro hd
      exact absurd hd (by simp [baseRow])
    · intro _
      exact ⟨rfl, rfl⟩
  | other m => simp [getEntryData] at h
  | vanished => simp [getEntryData] at h

/-- Provenance of a persisted row: it was captured from some non-root entry
of the walk, and its relative path is neither dot nor dot-dot. -/
theorem entries_provenance (env : Env) (oracle : Nat → Bool) (t : FsTree) (pats : List String)
    (r : Row) (hr : r ∈ (runPipeline env oracle t pats).entries) :
    ∃ it ∈ walkList (compileExclusions pats) [] t, it.1 ≠ [] ∧
      getEntryData it.1 it.2 = CaptureResult.row r ∧
      r.path ≠ ".." ∧ r.path ≠ "." := by
  have hcap := runItems_entries_sub env oracle pats (sigItems (compileExclusions pats) t) r hr
  unfold capturedRows at hcap
  rcases List.mem_filterMap.mp hcap with ⟨sitem, hsmem, hcapeq⟩
  unfold sigItems at hsmem
  rcases List.mem_map.mp hsmem with ⟨it, hitmem, hiteq⟩
  refine ⟨it, hitmem, ?_⟩
  rw [← hiteq] at hcapeq
  unfold cap at hcapeq
  by_cases hroot : it.1.isEmpty
  · simp [hroot] at hcapeq
  · simp only [hroot, Bool.false_eq_true, if_false] at hcapeq
    cases hged : getEntryData it.1 it.2 with
    | err => rw [hged] at hcapeq; simp at hcapeq
    | skip => rw [hged] at hcapeq; simp at hcapeq
    | row r0 =>
      rw [hged] at hcapeq
      simp only at hcapeq
      by_cases hdot : (r0.path == ".." || r0.path == ".") = true
      · simp [hdot] at hcapeq
      · simp only [hdot, Bool.false_eq_true, if_false, Option.some.injEq] at hcapeq
        subst hcapeq
        rw [Bool.or_eq_true, not_or] at hdot
        push_neg at hdot
        refine ⟨by simpa using hroot, rfl, ?_, ?_⟩
        · simpa using hdot.1
        · simpa using hdot.2

end Snap

namespace Snap

theorem captured_provenance (ms : List (List String → Bool)) (t : FsTree) (r : Row)
    (hcap : r ∈ capturedRows (sigItems ms t)) :
    ∃ it ∈ walkList ms [] t, it.1 ≠ [] ∧
      getEntryData it.1 it.2 = CaptureResult.row r ∧
      r.path ≠ ".." ∧ r.path ≠ "." := by
  unfold capturedRows at hcap
  rcases List.mem_filterMap.mp hcap with ⟨sitem, hsmem, hcapeq⟩
  unfold sigItems at hsmem
  rcases List.mem_map.mp hsmem with ⟨it, hitmem, hiteq⟩
  refine ⟨it, hitmem, ?_⟩
  rw [← hiteq] at hcapeq
  unfold cap at hcapeq
  by_cases hroot : it.1.isEmpty
  · simp [hroot] at hcapeq
  · simp only [hroot, Bool.false_eq_true, if_false] at hcapeq
    cases hged : getEntryData it.1 it.2 with
    | err => rw [hged] at hcapeq; simp at hcapeq
    | skip => rw [hged] at hcapeq; simp at hcapeq
    | row r0 =>
      rw [hged] at hcapeq
      simp only at hcapeq
      by_cases hdot : (r0.path == ".." || r0.path == ".") = true
      · simp [hdot] at hcapeq
      · simp only [hdot, Bool.false_eq_true, if_false, Option.some.injEq] at hcapeq
        subst hcapeq
        rw [Bool.or_eq_true, not_or] at hdot
        push_neg at hdot
        refine ⟨by simpa using hroot, rfl, ?_, ?_⟩
        · simpa using hdot.1
        · simpa using hdot.2

theorem length_eq_three_counts (l : List Row)
    (h : ∀ r ∈ l, r.type = "file" ∨ r.type = "dir" ∨ r.type = "link") :
    l.length = countType "file" l + countType "dir" l + countType "link" l := by
  induction l with
  | nil => simp [countType]
  | cons r rest ih =>
    have hr := h r (List.mem_cons_self r rest)
    have hrest := ih (fun x hx => h x (List.mem_cons_of_mem r hx))
    simp only [countType, List.filter_cons] at hrest ⊢
    rcases hr with h1 | h1 | h1 <;>
      simp [h1, List.length_cons, hrest] <;> omega

end Snap

namespace Snap

/-! ## Concrete fixtures -/

/-- Identity lookup that knows nobody, with fixed environment strings. -/
def sampleEnv : Env :=
  { user := fun _ => none, group := fun _ => none, rootPath := "/scan/root"
    platform := "linux", timeZone := "UTC" }

/-- Flush oracle of a run whose transactions all commit. -/
def neverFail : Nat → Bool := fun _ => false

/-- One fixed lstat result. -/
def sampleMeta : Meta :=
  { size := 5, mtime := 100, ctime := 200, btime := 0, mode := 0o644
    uid := 7, gid := 20, ino := 11, nlink := 1 }

/-- Fallback row used to pick concrete elements out of computed tables. -/
def someRow : Row := baseRow ["fallback"] sampleMeta

/-! ## Claim theorems -/

/-- C8: for every completed run the manifest satisfies
total_entries = total_files + total_dirs + total_links, and total_size is
the sum of the sizes of the persisted file entries.  Stated over the
manifest option so that runs without a manifest satisfy it vacuously. -/
theorem c8_manifest_totals (env : Env) (oracle : Nat → Bool) (t : FsTree) (pats : List String) :
    ((runPipeline env oracle t pats).manifest.map (fun m => m.total_entries)) =
      ((runPipeline env oracle t pats).manifest.map
        (fun m => m.total_files + m.total_dirs + m.total_links)) ∧
    ((runPipeline env oracle t pats).manifest.map (fun m => m.total_size)) =
      ((runPipeline env oracle t pats).manifest.map
        (fun _ => sumFileSizes (runPipeline env oracle t pats).entries)) := by
  unfold runPipeline
  cases hm : (runItems env oracle pats (sigItems (compileExclusions pats) t)).manifest with
  | none => simp
  | some m =>
    have hspec := runItems_manifest_spec env oracle pats (sigItems (compileExclusions pats) t) m hm
    have htri : ∀ r ∈ capturedRows (sigItems (compileExclusions pats) t),
        r.type = "file" ∨ r.type = "dir" ∨ r.type = "link" := by
      intro r hr
      rcases captured_provenance _ _ r hr with ⟨it, _, _, hged, _⟩
      exact (getEntryData_row_facts it.1 it.2 r hged).2.1
    have hlen := length_eq_three_counts _ htri
    constructor
    · simp only [Option.map_some']
      rw [hspec.2.1, hspec.2.2.1, hspec.2.2.2.1, hspec.2.2.2.2.1, hlen]
    · simp only [Option.map_some']
      rw [hspec.2.2.2.2.2.1, hspec.1]

/-- C10: calling createSnapshot on a database file that already holds an
entries table fails before anything is scanned or persisted: the entries
table is created without IF NOT EXISTS inside initDb, and initDb runs
before the error-absorbing try block, so the error propagates to the
caller. -/
theorem c10_existing_entries_table (pre : List String) (env : Env) (oracle : Nat → Bool)
    (t : FsTree) (pats : List String) (h : "entries" ∈ pre) :
    createSnapshot pre env oracle t pats = Except.error "table entries already exists" := by
  unfold createSnapshot initDb
  simp [h]

/-- Witness for c10_existing_entries_table at a concrete database state. -/
theorem c10_witness :
    ("entries" ∈ ["snapshot_info", "entries", "users", "groups"]) ∧
    createSnapshot ["snapshot_info", "entries", "users", "groups"] sampleEnv neverFail
        (FsTree.dir sampleMeta true FsForest.nil) [] =
      Except.error "table entries already exists" :=
  ⟨by decide,
   c10_existing_entries_table ["snapshot_info", "entries", "users", "groups"] sampleEnv neverFail
     (FsTree.dir sampleMeta true FsForest.nil) [] (by decide)⟩

end Snap

namespace Snap

/-- Tree of the C5 counterexample and witness: one file whose content hash
failed, or in the witness variant a file, a directory and a symlink. -/
def c5tree : FsTree :=
  FsTree.dir sampleMeta true (FsForest.ofList [("a.txt", FsTree.file sampleMeta none)])

/-- Tree with one successfully hashed file, one directory and one link. -/
def c5wtree : FsTree :=
  FsTree.dir sampleMeta true (FsForest.ofList
    [("a.txt", FsTree.file sampleMeta (some "h1")),
     ("d", FsTree.dir sampleMeta true FsForest.nil),
     ("l", FsTree.link sampleMeta "a.txt")])

/-- C5, counterexample to the claim as stated: the content hasher is typed
digest-or-null and getEntryData persists the row either way, so a run over
a tree with one file whose hash computation failed produces a persisted
entries row with type file and a null hash. -/
theorem c5_counterexample :
    (runPipeline sampleEnv neverFail c5tree []).entries.map (fun r => (r.type, r.hash)) =
      [("file", none)] := by
  decide

/-- C5 as amended: for every persisted row, a link row has a non-null
target and a null hash, a dir row has null hash, target and size, and a
file row has a null target; moreover whenever every file hash computation
of the tree succeeded, every persisted file row has a non-null hash.  The
unqualified claim that file rows always have a non-null hash is what the
counterexample refutes. -/
theorem c5_row_nullability (env : Env) (oracle : Nat → Bool) (t : FsTree)
    (pats : List String) :
    (∀ r ∈ (runPipeline env oracle t pats).entries,
      (r.type = "link" → r.hash = none ∧ r.target.isSome = true) ∧
      (r.type = "dir" → r.hash = none ∧ r.target = none ∧ r.size = none) ∧
      (r.type = "file" → r.target = none)) ∧
    (allHashed t = true → ∀ r ∈ (runPipeline env oracle t pats).entries,
      r.type = "file" → r.hash.isSome = true) := by
  constructor
  · intro r hr
    rcases entries_provenance env oracle t pats r hr with ⟨it, _, _, hged, _⟩
    have hfacts := getEntryData_row_facts it.1 it.2 r hged
    refine ⟨hfacts.2.2.2.2, hfacts.2.2.2.1, ?_⟩
    intro hf
    exact (hfacts.2.2.1 hf).1
  · intro hall r hr hf
    rcases entries_provenance env oracle t pats r hr with ⟨it, hitmem, _, hged, _⟩
    have hfacts := getEntryData_row_facts it.1 it.2 r hged
    rcases (hfacts.2.2.1 hf).2 with ⟨m, h0, hnode, hhash⟩
    have hnodeh := walkList_allHashed (compileExclusions pats) [] t hall it hitmem
    rw [hnode] at hnodeh
    simp only [allHashed] at hnodeh
    rw [hhash]
    exact hnodeh

/-- Witness for c5_row_nullability on a run holding one row of each type. -/
theorem c5_witness :
    (((runPipeline sampleEnv neverFail c5wtree []).entries.getD 0 someRow).hash.isSome = true) ∧
    (((runPipeline sampleEnv neverFail c5wtree []).entries.getD 2 someRow).hash = none ∧
      ((runPipeline sampleEnv neverFail c5wtree []).entries.getD 2 someRow).target.isSome = true) ∧
    (((runPipeline sampleEnv neverFail c5wtree []).entries.getD 1 someRow).hash = none ∧
      ((runPipeline sampleEnv neverFail c5wtree []).entries.getD 1 someRow).target = none ∧
      ((runPipeline sampleEnv neverFail c5wtree []).entries.getD 1 someRow).size = none) :=
  ⟨(c5_row_nullability sampleEnv neverFail c5wtree []).2 (by decide) _ (by decide) (by decide),
   ((c5_row_nullability sampleEnv neverFail c5wtree []).1 _ (by decide)).1 (by decide),
   ((c5_row_nullability sampleEnv neverFail c5wtree []).1 _ (by decide)).2.1 (by decide)⟩

end Snap

namespace Snap

/-- Tree for the C9 theorems: two plain entries under the root. -/
def c9tree : FsTree :=
  FsTree.dir sampleMeta true (FsForest.ofList
    [("a.txt", FsTree.file sampleMeta (some "h1")),
     ("sub", FsTree.dir sampleMeta true FsForest.nil)])

/-- C9, counterexample to the claim as stated: with the exclusion pattern
dot the root itself is excluded, the walk yields nothing at all, so there
is a run in which the walker does not discover the scan root. -/
theorem c9_counterexample :
    (walkList (compileExclusions ["."]) [] c9tree).map Prod.fst = [] ∧
    (runPipeline sampleEnv neverFail c9tree ["."]).entries = [] := by
  decide

/-- C9 as amended: in every run no persisted entries row is the root (its
relative path, the dot, never appears as a row path, thanks to the
explicit root skip and the dot-path guard of the loop), and whenever the
exclusion patterns do not match the relative path of the root, the walker
does discover the root and yields it first. -/
theorem c9_root_never_persisted (env : Env) (oracle : Nat → Bool) (t : FsTree)
    (pats : List String) :
    (∀ r ∈ (runPipeline env oracle t pats).entries, r.path ≠ ".") ∧
    (shouldExcludeSegs (compileExclusions pats) [] = false →
      (walkList (compileExclusions pats) [] t).head? = some ([], t)) := by
  constructor
  · intro r hr
    rcases entries_provenance env oracle t pats r hr with ⟨it, _, _, _, _, hdot⟩
    exact hdot
  · intro h
    unfold walkList
    cases t <;> simp [h]

/-- Witness for c9_root_never_persisted on a concrete run. -/
theorem c9_witness :
    (((runPipeline sampleEnv neverFail c9tree ["node_modules"]).entries.getD 0 someRow).path ≠ ".") ∧
    ((walkList (compileExclusions ["node_modules"]) [] c9tree).head? = some ([], c9tree)) :=
  ⟨(c9_root_never_persisted sampleEnv neverFail c9tree ["node_modules"]).1 _ (by decide),
   (c9_root_never_persisted sampleEnv neverFail c9tree ["node_modules"]).2 (by decide)⟩

/-- Tree for the C4 theorems: a readable file next to a directory whose
listing fails, the directory itself holding a child that can then never be
reached. -/
def c4tree : FsTree :=
  FsTree.dir sampleMeta true (FsForest.ofList
    [("a.txt", FsTree.file sampleMeta (some "h1")),
     ("locked", FsTree.dir sampleMeta false
       (FsForest.ofList [("x.txt", FsTree.file sampleMeta (some "h2"))]))])

/-- C4, counterexample to the claim as stated: a run in which a directory
listing fails mid-walk does complete and write a manifest row, keeps the
previously captured sibling and the row of the unreadable directory
itself, and treats the subtree as empty, but records no error at all:
total_errors is 0, not at least 1, because the walker absorbs the readdir
failure without touching the error counter. -/
theorem c4_counterexample :
    ((runPipeline sampleEnv neverFail c4tree []).manifest.map Manifest.total_errors) = some 0 ∧
    (runPipeline sampleEnv neverFail c4tree []).entries.map Row.path = ["a.txt", "locked"] := by
  decide

/-- C4 as amended: a directory whose listing fails is indistinguishable
from one with an empty listing for the whole observable run outcome
(entries, identity tables, manifest, error counter and signature), so the
run completes, previously captured entries stay persisted and the subtree
is treated as empty; and a run whose flush transactions all commit always
writes its manifest row.  The listing failure is not reflected in
total_errors. -/
theorem c4_listing_failure_absorbed (env : Env) (oracle : Nat → Bool) (t : FsTree)
    (pats : List String) :
    runPipeline env oracle (pruneUnreadable t) pats = runPipeline env oracle t pats ∧
    (runPipeline env (fun _ => false) t pats).manifest.isSome = true := by
  constructor
  · unfold runPipeline
    have hsig : sigItems (compileExclusions pats) (pruneUnreadable t) =
        sigItems (compileExclusions pats) t :=
      walkList_prune (compileExclusions pats) [] t
    rw [hsig]
  · exact runItems_manifest_isSome env pats (sigItems (compileExclusions pats) t)

end Snap

namespace Snap

/-- Tree for the C1 theorem: one file owned by uid 7 and gid 20, so the
run inserts one users row and one groups row. -/
def c1tree : FsTree :=
  FsTree.dir sampleMeta true (FsForest.ofList [("a.txt", FsTree.file sampleMeta (some "h1"))])

/-- C1: the signature is computed exactly once and stored in the manifest,
but createSnapshot calls calculateSnapshotContentHash before the users and
groups transaction runs, so at hashing time both identity tables are still
empty and the signature folds zero identity rows, even though the finished
database holds one users row and one groups row.  This contradicts the
stated order (hash after all identity rows are durably committed) and
leaves the users and groups queries inside calculateSnapshotContentHash
with nothing to contribute. -/
theorem c1_signature_misses_identity_rows :
    (runPipeline sampleEnv neverFail c1tree []).users.length = 1 ∧
    (runPipeline sampleEnv neverFail c1tree []).groups.length = 1 ∧
    ((runPipeline sampleEnv neverFail c1tree []).sign.map SignData.usersPart) = some [] ∧
    ((runPipeline sampleEnv neverFail c1tree []).sign.map SignData.groupsPart) = some [] ∧
    ((runPipeline sampleEnv neverFail c1tree []).manifest.map Manifest.snapshot_hash) =
      (runPipeline sampleEnv neverFail c1tree []).sign := by
  decide

/-- Child list of the C7 tree: 200 regular files. -/
def c7kids : FsForest :=
  FsForest.ofList ((List.range 200).map
    (fun i => ("f" ++ toString i, FsTree.file sampleMeta (some "h"))))

/-- Tree for the C7 theorem: a directory with 200 files, enough to trigger
the in-loop batch flush once. -/
def c7tree : FsTree := FsTree.dir sampleMeta true c7kids

/-- Flush oracle failing exactly the first flush attempt. -/
def failFirstFlush : Nat → Bool := fun k => k == 0

set_option maxRecDepth 40000 in
/-- C7: a persistence transaction failure on an in-loop batch flush is not
fatal.  The flush call sits inside the per-entry try of the scan loop, so
the throw is caught there: the run counts one error, keeps the unflushed
buffer, succeeds on the next flush, and still writes a manifest row with
all 200 entries persisted — where the claim requires the run to abort with
no manifest row. -/
theorem c7_flush_failure_not_fatal :
    (runPipeline sampleEnv failFirstFlush c7tree []).errors = 1 ∧
    (runPipeline sampleEnv failFirstFlush c7tree []).manifest.isSome = true ∧
    (runPipeline sampleEnv failFirstFlush c7tree []).entries.length = 200 := by
  decide

end Snap

namespace Snap

/-- C6, counterexample to the claim as stated: brace expansion is not
disabled.  compileExclusions passes nocomment, not nobrace, so the pattern
with the braced alternation group matches the bare path b; had brace
expansion been disabled the pattern would have been one literal segment
and could not match b. -/
theorem c6_counterexample :
    shouldExcludeSegs (compileExclusions ["\x7ba,b\x7d"]) ["b"] = true ∧
    mmMatch { snapOpts with nobrace := true } "\x7ba,b\x7d" ["b"] = false := by
  decide

/-- C6 as amended: the matchers compileExclusions builds use the option
set with dot, nocase and nocomment enabled and nobrace disabled, so
matching is case-insensitive, dot-prefixed names are matchable, the
globstar crosses separators, comment patterns are disabled (a
hash-initial pattern is matched literally instead of matching nothing),
and brace expansion stays enabled. -/
theorem c6_matcher_options :
    snapOpts.dot = true ∧ snapOpts.nocase = true ∧ snapOpts.nocomment = true ∧
    snapOpts.nobrace = false ∧
    compileExclusions ["p"] = [fun segs => mmMatch snapOpts "p" segs] ∧
    shouldExcludeSegs (compileExclusions ["ABC"]) ["abc"] = true ∧
    shouldExcludeSegs (compileExclusions ["*"]) [".hidden"] = true ∧
    mmMatch { snapOpts with dot := false } "*" [".hidden"] = false ∧
    shouldExcludeSegs (compileExclusions ["#cache"]) ["#cache"] = true ∧
    mmMatch { snapOpts with nocomment := false } "#cache" ["#cache"] = false ∧
    shouldExcludeSegs (compileExclusions ["a/**"]) ["a", "b", "c"] = true ∧
    shouldExcludeSegs (compileExclusions ["\x7ba,b\x7d"]) ["a"] = true := by
  refine ⟨rfl, rfl, rfl, rfl, rfl, ?_, ?_, ?_, ?_, ?_, ?_, ?_⟩ <;> decide

end Snap

namespace Snap

/-! ## Matcher lemmas for the globstar wrap pattern -/

theorem splitChars_noSlash (a : List Char) (h : ∀ c ∈ a, c ≠ '/') :
    splitChars a = [a] := by
  induction a with
  | nil => rfl
  | cons c rest ih =>
    have hc : c ≠ '/' := h c (List.mem_cons_self c rest)
    have hrest := ih (fun x hx => h x (List.mem_cons_of_mem c hx))
    unfold splitChars
    simp [hc, hrest]

theorem splitChars_append (a b : List Char) (h : ∀ c ∈ a, c ≠ '/') :
    splitChars (a ++ '/' :: b) = a :: splitChars b := by
  induction a with
  | nil =>
    simp only [List.nil_append]
    conv_lhs => rw [splitChars]
    simp
  | cons c rest ih =>
    have hc : c ≠ '/' := h c (List.mem_cons_self c rest)
    have hrest := ih (fun x hx => h x (List.mem_cons_of_mem c hx))
    simp only [List.cons_append]
    conv_lhs => rw [splitChars]
    simp [hc, hrest]

theorem splitChars_joinChars (ls : List (List Char)) (hne : ls ≠ [])
    (h : ∀ l ∈ ls, ∀ c ∈ l, c ≠ '/') : splitChars (joinChars ls) = ls := by
  induction ls with
  | nil => exact absurd rfl hne
  | cons a rest ih =>
    cases rest with
    | nil =>
      show splitChars (joinChars [a]) = [a]
      unfold joinChars
      exact splitChars_noSlash a (h a (List.mem_cons_self a []))
    | cons b rest2 =>
      show splitChars (joinChars (a :: b :: rest2)) = a :: b :: rest2
      have hj : joinChars (a :: b :: rest2) = a ++ '/' :: joinChars (b :: rest2) := rfl
      rw [hj, splitChars_append a _ (h a (List.mem_cons_self a (b :: rest2)))]
      rw [ih (by simp) (fun l hl => h l (List.mem_cons_of_mem a hl))]

/-- Splitting the rendered path of a nonempty valid segment list gives the
segment list back. -/
theorem splitSlash_renderSegs (segs : List String) (hne : segs ≠ [])
    (h : ∀ s ∈ segs, validName s = true) : splitSlash (renderSegs segs) = segs := by
  have hnsl : ∀ l ∈ segs.map String.data, ∀ c ∈ l, c ≠ '/' := by
    intro l hl c hc
    rcases List.mem_map.mp hl with ⟨s, hs, hseq⟩
    have hv := h s hs
    unfold validName at hv
    simp only [Bool.and_eq_true] at hv
    intro hcsl
    subst hcsl
    have hcontains : s.data.contains '/' = true := by
      rw [hseq]
      exact List.elem_eq_true_of_mem hc
    rw [hcontains] at hv
    simp at hv
  unfold splitSlash renderSegs
  have hse : segs.isEmpty = false := by
    cases segs with
    | nil => exact absurd rfl hne
    | cons x xs => rfl
  simp only [hse, Bool.false_eq_true, if_false]
  show (splitChars (joinChars (segs.map String.data))).map (fun l => String.mk l) = segs
  rw [splitChars_joinChars (segs.map String.data) (by simpa using hne) hnsl]
  rw [show (fun l => String.mk l) = String.mk from rfl]
  rw [List.map_map]
  have : (String.mk ∘ String.data) = id := by
    funext s
    cases s
    rfl
  rw [this, List.map_id]

theorem findBrace_none (l : List Char) (h : ∀ c ∈ l, c ≠ '\x7b') : findBrace l = none := by
  induction l with
  | nil => rfl
  | cons c rest ih =>
    have hc : c ≠ '\x7b' := h c (List.mem_cons_self c rest)
    have hrest := ih (fun x hx => h x (List.mem_cons_of_mem c hx))
    unfold findBrace
    simp [hc, hrest]

/-- Pointwise character-list comparison up to ASCII case. -/
def chEqList (nocase : Bool) : List Char → List Char → Bool
  | [], [] => true
  | a :: as, b :: bs => chEq nocase a b && chEqList nocase as bs
  | _, _ => false

/-- Case-insensitive equality of two segments, the relation a plain
(metacharacter-free) pattern segment realizes under the nocase option. -/
def segEqI (X s : String) : Bool := chEqList true X.data s.data

/-- Characters that are plain for the modelled matcher: no glob, class,
extglob, brace, negation, comment, escape or separator characters. -/
def plainChar (c : Char) : Bool :=
  !(c ∈ ['*', '?', '[', ']', '\x7b', '\x7d', '(', ')', '|', '+', '@', '!', '\\', '/', '#'])

/-- A plain pattern segment: nonempty and made of plain characters only. -/
def plainSeg (X : String) : Bool := !X.data.isEmpty && X.data.all plainChar

/-- There is a case-insensitive occurrence of X at a non-final position. -/
def hasNonFinalEqI (X : String) : List String → Bool
  | [] => false
  | [_] => false
  | s :: r :: rest => segEqI X s || hasNonFinalEqI X (r :: rest)

theorem globCharsF_plain (nocase : Bool) (ps : List Char)
    (hps : ∀ c ∈ ps, c ≠ '*' ∧ c ≠ '?') :
    ∀ (f : Nat) (cs : List Char), ps.length < f →
      globCharsF nocase f ps cs = chEqList nocase ps cs := by
  induction ps with
  | nil =>
    intro f cs hf
    cases f with
    | zero => omega
    | succ f1 =>
      cases cs with
      | nil => rfl
      | cons c cs1 => rfl
  | cons p ps1 ih =>
    intro f cs hf
    cases f with
    | zero => omega
    | succ f1 =>
      have hp := hps p (List.mem_cons_self p ps1)
      have hrec := ih (fun x hx => hps x (List.mem_cons_of_mem p hx))
      unfold globCharsF
      simp only [hp.1, if_false]
      cases cs with
      | nil => rfl
      | cons c cs1 =>
        simp only [hp.2, if_false]
        rw [hrec f1 cs1 (by simp at hf; omega)]
        rfl

theorem segMatch_plain (X f : String) (hX : ∀ c ∈ X.data, c ≠ '*' ∧ c ≠ '?') :
    segMatch snapOpts X f = segEqI X f := by
  unfold segMatch
  simp only [snapOpts, Bool.not_true, Bool.false_and, Bool.false_eq_true, if_false]
  unfold globChars segEqI
  exact globCharsF_plain true X.data hX (X.data.length + f.data.length + 1) f.data (by omega)

theorem validName_not_blocked (s : String) (h : validName s = true) :
    blockedSeg snapOpts s = false := by
  unfold validName at h
  simp only [Bool.and_eq_true] at h
  unfold blockedSeg
  simp only [snapOpts, Bool.not_true, Bool.false_and, Bool.or_false]
  have h1 : (s == ".") = false := by
    have := h.1.1.2
    simpa using this
  have h2 : (s == "..") = false := by
    have := h.1.2
    simpa using this
  simp [h1, h2]

theorem matchSegs_trailing_globstar (l : List String)
    (h : ∀ s ∈ l, blockedSeg snapOpts s = false) :
    matchSegs snapOpts [PatSeg.globstar] l = !l.isEmpty := by
  cases l with
  | nil => rfl
  | cons f fs =>
    unfold matchSegs
    simp only [List.isEmpty_nil, if_true]
    have : ∀ s ∈ f :: fs, (!blockedSeg snapOpts s) = true := by
      intro s hs
      simp [h s hs]
    simp [List.all_eq_true.mpr this]

theorem matchSegs_lit_globstar (X : String) (hX : ∀ c ∈ X.data, c ≠ '*' ∧ c ≠ '?')
    (g : String) (gs1 : List String) (h : ∀ s ∈ gs1, blockedSeg snapOpts s = false) :
    matchSegs snapOpts [PatSeg.lit X, PatSeg.globstar] (g :: gs1) =
      (segEqI X g && !gs1.isEmpty) := by
  have hred : matchSegs snapOpts [PatSeg.lit X, PatSeg.globstar] (g :: gs1) =
      (segMatch snapOpts X g && matchSegs snapOpts [PatSeg.globstar] gs1) := rfl
  rw [hred, segMatch_plain X g hX, matchSegs_trailing_globstar gs1 h]

theorem gsTries_any_lit (X : String) (hX : ∀ c ∈ X.data, c ≠ '*' ∧ c ≠ '?') :
    ∀ (l : List String), (∀ s ∈ l, blockedSeg snapOpts s = false) →
      ((gsTries snapOpts l).any
        (fun suf => matchSegs snapOpts [PatSeg.lit X, PatSeg.globstar] suf)) =
        hasNonFinalEqI X l := by
  intro l
  induction l with
  | nil => intro _; rfl
  | cons f fs ih =>
    intro h
    have hf : blockedSeg snapOpts f = false := h f (List.mem_cons_self f fs)
    have hfs : ∀ s ∈ fs, blockedSeg snapOpts s = false :=
      fun s hs => h s (List.mem_cons_of_mem f hs)
    unfold gsTries
    simp only [hf, Bool.false_eq_true, if_false, List.any_cons]
    rw [matchSegs_lit_globstar X hX f fs hfs]
    rw [ih hfs]
    cases fs with
    | nil => simp [hasNonFinalEqI]
    | cons r rest =>
      show (segEqI X f && !(r :: rest).isEmpty || hasNonFinalEqI X (r :: rest)) =
        hasNonFinalEqI X (f :: r :: rest)
      simp [hasNonFinalEqI]

theorem matchSegs_globstar_wrap (X : String) (hX : ∀ c ∈ X.data, c ≠ '*' ∧ c ≠ '?')
    (l : List String) (h : ∀ s ∈ l, blockedSeg snapOpts s = false) :
    matchSegs snapOpts [PatSeg.globstar, PatSeg.lit X, PatSeg.globstar] l =
      hasNonFinalEqI X l := by
  cases l with
  | nil => rfl
  | cons f fs =>
    have hred : matchSegs snapOpts [PatSeg.globstar, PatSeg.lit X, PatSeg.globstar] (f :: fs) =
        (gsTries snapOpts (f :: fs)).any
          (fun suf => matchSegs snapOpts [PatSeg.lit X, PatSeg.globstar] suf) := rfl
    rw [hred]
    exact gsTries_any_lit X hX (f :: fs) h

end Snap

namespace Snap

theorem plainSeg_chars {X : String} (hX : plainSeg X = true) :
    ∀ c ∈ X.data, plainChar c = true := by
  unfold plainSeg at hX
  simp only [Bool.and_eq_true] at hX
  exact fun c hc => List.all_eq_true.mp hX.2 c hc

theorem plainChar_facts {c : Char} (h : plainChar c = true) :
    c ≠ '*' ∧ c ≠ '?' ∧ c ≠ '/' ∧ c ≠ '\x7b' := by
  unfold plainChar at h
  simp only [Bool.not_eq_true'] at h
  refine ⟨?_, ?_, ?_, ?_⟩ <;>
    · intro hc
      subst hc
      simp at h

/-- Against a path of valid segments, the compiled pattern
two-star slash X slash two-star matches exactly when some non-final
segment equals X up to ASCII case. -/
theorem mmMatch_globstar_wrap (X : String) (hX : plainSeg X = true) (segs : List String)
    (hsegs : ∀ s ∈ segs, validName s = true) :
    mmMatch snapOpts ("**/" ++ X ++ "/**") segs = hasNonFinalEqI X segs := by
  have hchars := plainSeg_chars hX
  have hstar : ∀ c ∈ X.data, c ≠ '*' ∧ c ≠ '?' :=
    fun c hc => ⟨(plainChar_facts (hchars c hc)).1, (plainChar_facts (hchars c hc)).2.1⟩
  have hnoslash : ∀ c ∈ X.data, c ≠ '/' := fun c hc => (plainChar_facts (hchars c hc)).2.2.1
  have hnobr : ∀ c ∈ X.data, c ≠ '\x7b' := fun c hc => (plainChar_facts (hchars c hc)).2.2.2
  have hblocked : ∀ s ∈ segs, blockedSeg snapOpts s = false :=
    fun s hs => validName_not_blocked s (hsegs s hs)
  have hPdata : ("**/" ++ X ++ "/**").data =
      '*' :: '*' :: '/' :: (X.data ++ '/' :: '*' :: '*' :: []) := by
    rw [String.data_append, String.data_append]
    rw [show ("**/" : String).data = ['*', '*', '/'] from by decide]
    rw [show ("/**" : String).data = ['/', '*', '*'] from by decide]
    simp
  have hP : ("**/" ++ X ++ "/**") =
      String.mk ('*' :: '*' :: '/' :: (X.data ++ '/' :: '*' :: '*' :: [])) :=
    string_ext hPdata
  rw [hP]
  have hpd : (String.mk ('*' :: '*' :: '/' :: (X.data ++ '/' :: '*' :: '*' :: []))).data =
      '*' :: '*' :: '/' :: (X.data ++ '/' :: '*' :: '*' :: []) := rfl
  have hlit : ∀ c ∈ ['/', '*', '*'], c ≠ '\x7b' := by decide
  have hnb : ∀ c ∈ '*' :: '*' :: '/' :: (X.data ++ '/' :: '*' :: '*' :: []), c ≠ '\x7b' := by
    intro c hc
    rcases List.mem_cons.mp hc with h | hc2
    · subst h; decide
    rcases List.mem_cons.mp hc2 with h | hc3
    · subst h; decide
    rcases List.mem_cons.mp hc3 with h | hc4
    · subst h; decide
    rcases List.mem_append.mp hc4 with h | h
    · exact hnobr c h
    · exact hlit c h
  have hfb : braceExpand (String.mk ('*' :: '*' :: '/' :: (X.data ++ '/' :: '*' :: '*' :: []))) =
      [String.mk ('*' :: '*' :: '/' :: (X.data ++ '/' :: '*' :: '*' :: []))] := by
    unfold braceExpand
    rw [hpd, findBrace_none _ hnb]
  have hXne : (X == "**") = false := by
    rw [beq_eq_false_iff_ne]
    intro h
    subst h
    exact absurd rfl ((hstar '*' (by decide)).1)
  have hparseX : parseSeg X = PatSeg.lit X := by
    unfold parseSeg
    rw [hXne]
    simp
  have hsplit : splitSlash (String.mk ('*' :: '*' :: '/' :: (X.data ++ '/' :: '*' :: '*' :: []))) =
      ["**", X, "**"] := by
    unfold splitSlash
    rw [hpd]
    rw [show ('*' :: '*' :: '/' :: (X.data ++ '/' :: '*' :: '*' :: [])) =
        (['*', '*'] ++ '/' :: (X.data ++ '/' :: ['*', '*'])) from rfl]
    rw [splitChars_append ['*', '*'] _ (by decide)]
    rw [splitChars_append X.data _ hnoslash]
    rw [splitChars_noSlash ['*', '*'] (by decide)]
    simp only [List.map_cons, List.map_nil]
  unfold mmMatch
  rw [show parseNegate snapOpts
      (String.mk ('*' :: '*' :: '/' :: (X.data ++ '/' :: '*' :: '*' :: []))) =
      (false, String.mk ('*' :: '*' :: '/' :: (X.data ++ '/' :: '*' :: '*' :: []))) from rfl]
  simp only [show (!snapOpts.nocomment) = false from rfl, Bool.false_and, Bool.false_eq_true,
    if_false,
    show ((String.mk ('*' :: '*' :: '/' :: (X.data ++ '/' :: '*' :: '*' :: []))) == "") = false
      from rfl,
    show snapOpts.nobrace = false from rfl, hfb, hsplit, List.any_cons, List.any_nil,
    Bool.or_false, List.map_cons, List.map_nil,
    show parseSeg "**" = PatSeg.globstar from rfl, hparseX]
  rw [matchSegs_globstar_wrap X hstar segs hblocked]

end Snap

namespace Snap

/-- Tree for the C3 theorems: a directory X with one child. -/
def c3tree : FsTree :=
  FsTree.dir sampleMeta true (FsForest.ofList
    [("X", FsTree.dir sampleMeta true
      (FsForest.ofList [("c.txt", FsTree.file sampleMeta (some "h"))]))])

/-- C3, counterexample to the claim as stated: scanning with the single
exclusion pattern two-star slash X slash two-star persists the entry for
the directory X itself (the pattern does not match the bare path X,
because the trailing globstar of minimatch needs at least one following
segment), while the subtree below X is removed.  The claim says the entry
for X itself is removed as well. -/
theorem c3_counterexample :
    (runPipeline sampleEnv neverFail c3tree ["**/X/**"]).entries.map Row.path = ["X"] := by
  decide

/-- C3 as amended: with the single exclusion pattern two-star slash X
slash two-star (X a plain, metacharacter-free segment, over a tree of
valid names), no persisted entry has a segment equal to X up to case at a
non-final position: everything strictly inside any directory named X is
removed.  The entry for X itself, and any entry whose final segment is X,
is not removed by this pattern. -/
theorem c3_wrap_pattern_prunes_subtree (env : Env) (oracle : Nat → Bool) (t : FsTree)
    (X : String) (ht : validTree t = true) (hX : plainSeg X = true) :
    ∀ r ∈ (runPipeline env oracle t ["**/" ++ X ++ "/**"]).entries,
      hasNonFinalEqI X (splitSlash r.path) = false := by
  intro r hr
  rcases entries_provenance env oracle t ["**/" ++ X ++ "/**"] r hr with
    ⟨it, hitmem, hne, hged, _, _⟩
  have hvalid : ∀ s ∈ it.1, validName s = true :=
    walkList_valid (compileExclusions ["**/" ++ X ++ "/**"]) [] t (by simp) ht it hitmem
  have hexcl : shouldExcludeSegs (compileExclusions ["**/" ++ X ++ "/**"]) it.1 = false :=
    walkList_excl (compileExclusions ["**/" ++ X ++ "/**"]) [] t it hitmem
  have hne2 : it.1.isEmpty = false := by
    cases h1 : it.1 with
    | nil => exact absurd h1 hne
    | cons a b => rfl
  unfold shouldExcludeSegs compileExclusions at hexcl
  simp only [List.map_cons, List.map_nil, List.any_cons, List.any_nil, Bool.or_false,
    hne2, Bool.false_eq_true, if_false] at hexcl
  rw [mmMatch_globstar_wrap X hX it.1 hvalid] at hexcl
  have hpath : r.path = renderSegs it.1 := (getEntryData_row_facts it.1 it.2 r hged).1
  rw [hpath, splitSlash_renderSegs it.1 hne hvalid]
  exact hexcl

/-- Witness for c3_wrap_pattern_prunes_subtree on a concrete run. -/
theorem c3_witness :
    validTree c3tree = true ∧ plainSeg "X" = true ∧
    hasNonFinalEqI "X" (splitSlash
      (((runPipeline sampleEnv neverFail c3tree
        ["**/" ++ "X" ++ "/**"]).entries.getD 0 someRow).path)) = false :=
  ⟨by decide, by decide,
   c3_wrap_pattern_prunes_subtree sampleEnv neverFail c3tree "X" (by decide) (by decide) _
     (by decide)⟩

end Snap

namespace Snap

/-- Tree for the C2 witness: two files and a subdirectory. -/
def c2tree : FsTree :=
  FsTree.dir sampleMeta true (FsForest.ofList
    [("b.txt", FsTree.file sampleMeta (some "hb")),
     ("a.txt", FsTree.file sampleMeta (some "ha")),
     ("sub", FsTree.dir sampleMeta true
       (FsForest.ofList [("c.txt", FsTree.file sampleMeta (some "hc"))]))])

/-- C2: any two completed runs of the pipeline that consume the capture
stream of the same unchanged tree in any producer order (any permutation
of the walk output), possibly under different identity environments and
different absorbed flush failures, store the identical snapshot_hash in
their manifests, provided entry paths are unique (they are the primary
key).  The hash reads the committed rows back in explicit path order, so
the insertion order never matters. -/
theorem c2_snapshot_hash_deterministic (env1 env2 : Env) (oracle1 oracle2 : Nat → Bool)
    (pats : List String) (t : FsTree)
    (sitems1 sitems2 : List (List String × CaptureResult))
    (h1 : List.Perm sitems1 (sigItems (compileExclusions pats) t))
    (h2 : List.Perm sitems2 (sigItems (compileExclusions pats) t))
    (hnd : ((capturedRows (sigItems (compileExclusions pats) t)).map Row.path).Nodup)
    (hm1 : (runItems env1 oracle1 pats sitems1).manifest.isSome = true)
    (hm2 : (runItems env2 oracle2 pats sitems2).manifest.isSome = true) :
    (runItems env1 oracle1 pats sitems1).manifest.map Manifest.snapshot_hash =
      (runItems env2 oracle2 pats sitems2).manifest.map Manifest.snapshot_hash := by
  rcases Option.isSome_iff_exists.mp hm1 with ⟨m1, hm1e⟩
  rcases Option.isSome_iff_exists.mp hm2 with ⟨m2, hm2e⟩
  have hs1 := runItems_manifest_spec env1 oracle1 pats sitems1 m1 hm1e
  have hs2 := runItems_manifest_spec env2 oracle2 pats sitems2 m2 hm2e
  have hcapperm : List.Perm (capturedRows sitems1) (capturedRows sitems2) :=
    (h1.filterMap cap).trans (h2.filterMap cap).symm
  have hnd1 : ((capturedRows sitems1).map Row.path).Nodup :=
    ((h1.filterMap cap).map Row.path).nodup_iff.mpr hnd
  have hsorteq : List.insertionSort rowLeP (capturedRows sitems1) =
      List.insertionSort rowLeP (capturedRows sitems2) := by
    apply sorted_perm_nodup_paths_eq
    · exact (List.perm_insertionSort rowLeP _).trans
        (hcapperm.trans (List.perm_insertionSort rowLeP _).symm)
    · exact List.sorted_insertionSort rowLeP _
    · exact List.sorted_insertionSort rowLeP _
    · exact ((List.perm_insertionSort rowLeP _).map Row.path).nodup_iff.mpr hnd1
  have hhash : m1.snapshot_hash = m2.snapshot_hash := by
    rw [hs1.2.2.2.2.2.2, hs2.2.2.2.2.2.2]
    unfold snapshotContentHash
    rw [hsorteq]
  rw [hm1e, hm2e, Option.map_some', Option.map_some', hhash]

/-- Witness for c2_snapshot_hash_deterministic: the same tree consumed in
walk order and in reversed order produces the same stored hash. -/
theorem c2_witness :
    (runItems sampleEnv neverFail []
        (sigItems (compileExclusions []) c2tree).reverse).manifest.map Manifest.snapshot_hash =
      (runItems sampleEnv neverFail []
        (sigItems (compileExclusions []) c2tree)).manifest.map Manifest.snapshot_hash :=
  c2_snapshot_hash_deterministic sampleEnv sampleEnv neverFail neverFail [] c2tree _ _
    (List.reverse_perm _) (List.Perm.refl _) (by decide) (by decide) (by decide)

end Snap
